import Mathlib

/-!
Verification of the pdm-bump core: the PEP 440 `Version` data model, its
comparison and formatting, the `VersionModifier` family, the conventional
commit classification and the rating-based version policy.

Each definition is a shallow embedding of the corresponding Python code in
`src/pdm_bump` (file and symbol given in the doc comments).  Python `int`
values here are `Nat` (all the modelled quantities are non-negative by the
`NonNegativeInteger` annotations in the source), Python `None`-able fields
are `Option`, and raising code returns `Except`.
-/

namespace PdmBump

/-- Python string comparison (`str.__lt__`) on the underlying character
lists: lexicographic by code point, a proper prefix being smaller. -/
def pyCharsLt : List Char → List Char → Bool
  | [], [] => false
  | [], _ :: _ => true
  | _ :: _, [] => false
  | a :: as, b :: bs =>
      if a < b then true
      else if b < a then false
      else pyCharsLt as bs

/-- Python string comparison on `String`. -/
def pyStrLt (a b : String) : Bool :=
  pyCharsLt a.data b.data

/-- A Python value as it occurs inside the comparison tuples built by
`Version.__eq__` and `Version.__lt__` in `core/version.py`: an int, a
string, `None`, or a tuple of such values. -/
inductive PyVal where
  | pyNone : PyVal
  | pyInt (n : Nat) : PyVal
  | pyStr (s : String) : PyVal
  | pyTuple (items : List PyVal) : PyVal
deriving Repr

mutual

/-- Python `==` on the modelled values: structural, and `False` (never an
error) between values of different shapes, exactly as for Python's
`int`/`str`/`tuple`/`None`. -/
def pyEq : PyVal → PyVal → Bool
  | .pyNone, .pyNone => true
  | .pyInt a, .pyInt b => a == b
  | .pyStr a, .pyStr b => a == b
  | .pyTuple a, .pyTuple b => pyEqList a b
  | _, _ => false

/-- Python `==` on tuples: same length and elementwise equal. -/
def pyEqList : List PyVal → List PyVal → Bool
  | [], [] => true
  | a :: as, b :: bs => pyEq a b && pyEqList as bs
  | _, _ => false

end

mutual

/-- Python `<` on the modelled values.  `none` is a `TypeError`: Python
defines `<` between two ints, two strings, and two tuples, but raises for
any mixed pair and for `None < None`. -/
def pyLt : PyVal → PyVal → Option Bool
  | .pyInt a, .pyInt b => some (decide (a < b))
  | .pyStr a, .pyStr b => some (pyStrLt a b)
  | .pyTuple a, .pyTuple b => pyLtList a b
  | _, _ => none

/-- Python `<` on tuples: scan for the first position whose elements are
not `==`, and compare there with `<` (which may raise); tuples that are
elementwise equal compare by length. -/
def pyLtList : List PyVal → List PyVal → Option Bool
  | [], [] => some false
  | [], _ :: _ => some true
  | _ :: _, [] => some false
  | a :: as, b :: bs =>
      if pyEq a b then pyLtList as bs else pyLt a b

end

/-- The PEP 440 version value of `core/version.py` (`Version`, a frozen
dataclass).  `post` and `dev` are stored in the source as tuples
`("post", n)` / `("dev", n)` whose first component is fixed by its
`Literal` type; only the number is modelled, and `encode` below restores
the tag where the comparison tuples need it.  `local` is a Lean keyword,
hence the trailing underscore. -/
structure Version where
  epoch : Nat := 0
  release_tuple : List Nat := [1, 0, 0]
  preview : Option (String × Nat) := none
  post : Option Nat := none
  dev : Option Nat := none
  local_ : Option String := none
deriving Repr, DecidableEq

namespace Version

/-- `Version.major`: `release_tuple[0] if len(release_tuple) >= 1 else 0`. -/
def major (v : Version) : Nat := v.release_tuple.getD 0 0

/-- `Version.minor`: `release_tuple[1] if len(release_tuple) >= 2 else 0`. -/
def minor (v : Version) : Nat := v.release_tuple.getD 1 0

/-- `Version.micro`: `release_tuple[2] if len(release_tuple) >= 3 else 0`. -/
def micro (v : Version) : Nat := v.release_tuple.getD 2 0

/-- `Version.release`: always exactly the three components
`(major, minor, micro)`. -/
def release (v : Version) : Nat × Nat × Nat := (v.major, v.minor, v.micro)

/-- `Version.is_development_version`: the dev part is set. -/
def is_development_version (v : Version) : Bool := v.dev.isSome

/-- `Version.is_pre_release`: a preview part or a dev part is set. -/
def is_pre_release (v : Version) : Bool :=
  v.preview.isSome || v.is_development_version

/-- `Version.is_post_release`: the post part is set. -/
def is_post_release (v : Version) : Bool := v.post.isSome

/-- `Version.is_local_version`: the local part is set. -/
def is_local_version (v : Version) : Bool := v.local_.isSome

/-- `Version.is_alpha`: the preview kind is `a` or `alpha`. -/
def is_alpha (v : Version) : Bool :=
  match v.preview with
  | some (k, _) => k == "a" || k == "alpha"
  | none => false

/-- `Version.is_beta`: the preview kind is `b` or `beta`. -/
def is_beta (v : Version) : Bool :=
  match v.preview with
  | some (k, _) => k == "b" || k == "beta"
  | none => false

/-- `Version.is_release_candidate`: the preview kind is `c` or `rc`. -/
def is_release_candidate (v : Version) : Bool :=
  match v.preview with
  | some (k, _) => k == "c" || k == "rc"
  | none => false

/-- `Version.is_final`: none of preview, local, post, dev is set. -/
def is_final (v : Version) : Bool :=
  v.preview.isNone && !v.is_local_version && !v.is_post_release
    && !v.is_development_version

/-- The `__post_init__` validation: a preview kind, when present on a
non-development version, must be in the six accepted spellings. -/
def validKind (k : String) : Bool :=
  k == "a" || k == "b" || k == "c" || k == "alpha" || k == "beta" || k == "rc"

/-- The preview field as the Python value it is: a (kind, number) tuple
or `None`. -/
def encPreview : Option (String × Nat) → PyVal
  | some (k, n) => .pyTuple [.pyStr k, .pyInt n]
  | none => .pyNone

/-- A post or dev field as the Python value it is: a (tag, number) tuple
or `None`, the tag being the fixed literal of its type. -/
def encTagged (tag : String) : Option Nat → PyVal
  | some n => .pyTuple [.pyStr tag, .pyInt n]
  | none => .pyNone

/-- The local field as the Python value it is: a string or `None`. -/
def encLocal : Option String → PyVal
  | some s => .pyStr s
  | none => .pyNone

/-- The comparison tuple built by both `Version.__eq__` and
`Version.__lt__`:
`(epoch, release, preview, post, dev, local)` with `release` the exposed
three-component tuple. -/
def encode (v : Version) : List PyVal :=
  [ .pyInt v.epoch,
    .pyTuple [.pyInt v.major, .pyInt v.minor, .pyInt v.micro],
    encPreview v.preview,
    encTagged "post" v.post,
    encTagged "dev" v.dev,
    encLocal v.local_ ]

/-- `Version.__eq__`: conjunction of `==` on epoch, the exposed release
triple, preview, post, dev and local. -/
def veq (v w : Version) : Bool :=
  v.epoch == w.epoch && v.release == w.release && v.preview == w.preview
    && v.post == w.post && v.dev == w.dev && v.local_ == w.local_

/-- `Version.__lt__`: Python comparison of the two data tuples; `none`
models the `TypeError` Python raises when the comparison reaches a slot
pairing `None` with a value. -/
def vlt (v w : Version) : Option Bool :=
  pyLtList (encode v) (encode w)

/-- `__ge__` as filled in by `functools.total_ordering` from `__lt__`:
`a >= b` is `not (a < b)`, raising exactly when `__lt__` raises. -/
def vge (v w : Version) : Option Bool :=
  (vlt v w).map (fun b => !b)

end Version

/-- Decimal digit character for a value below ten. -/
def digitChar (n : Nat) : Char :=
  if n = 0 then '0'
  else if n = 1 then '1'
  else if n = 2 then '2'
  else if n = 3 then '3'
  else if n = 4 then '4'
  else if n = 5 then '5'
  else if n = 6 then '6'
  else if n = 7 then '7'
  else if n = 8 then '8'
  else '9'

/-- Fueled computation of the decimal digits of a natural number, most
significant first; any fuel above the argument is enough, and
`natDigits` below supplies it. -/
def natDigitsAux : Nat → Nat → List Char
  | 0, _ => []
  | fuel + 1, n =>
      if n < 10 then [digitChar n]
      else natDigitsAux fuel (n / 10) ++ [digitChar (n % 10)]

/-- The decimal digits of a natural number, most significant first: the
model of Python `str(int)` for the non-negative ints of this code. -/
def natDigits (n : Nat) : List Char := natDigitsAux (n + 1) n

/-- Python `str` of a non-negative int. -/
def natRepr (n : Nat) : String := String.mk (natDigits n)

/-- `Pep440VersionFormatter.format` of `core/version.py`: optional
`epoch!`, the three exposed release components joined by dots, the
preview as kind and number without separator, `.postN`, `.devN`, and
`+local`, concatenated in that order (the source collects these parts
in a list and joins them with the empty separator). -/
def format (v : Version) : String :=
  (if v.epoch > 0 then natRepr v.epoch ++ "!" else "")
    ++ natRepr v.major ++ "." ++ natRepr v.minor ++ "."
    ++ natRepr v.micro
    ++ (match v.preview with
        | some (k, n) => k ++ natRepr n
        | none => "")
    ++ (match v.post with
        | some n => ".post" ++ natRepr n
        | none => "")
    ++ (match v.dev with
        | some n => ".dev" ++ natRepr n
        | none => "")
    ++ (match v.local_ with
        | some s => "+" ++ s
        | none => "")

/-- The errors the modifiers can raise: `PreviewMismatchError` from
actions/preview.py and `ValueError` from actions/poetry_like.py. -/
inductive BumpError where
  | previewMismatch
  | valueError
deriving Repr, DecidableEq

/-- `_ReleaseVersionModifier._update_release_version_part`: starts from
`list(current_version.release)` (the exposed three components),
increments the component at `partId` and zeroes every later one. -/
def updateReleasePart (v : Version) (partId : Nat) : List Nat :=
  List.mapIdx
    (fun i x => if i = partId then x + 1 else if partId < i then 0 else x)
    [v.major, v.minor, v.micro]

/-- `_ReleaseVersionModifier.create_new_version` for the release part at
`partId`; `removeParts` mirrors the `--no-remove` flag (default true),
clearing preview, post, dev and local together while keeping the epoch. -/
def releaseIncrement (partId : Nat) (removeParts : Bool) (v : Version) :
    Version :=
  let next := updateReleasePart v partId
  if removeParts then
    { epoch := v.epoch, release_tuple := next, preview := none,
      post := none, dev := none, local_ := none }
  else
    { v with release_tuple := next }

/-- `FinalizingVersionModifier.create_new_version`: keeps epoch and the
exposed release, drops preview, post, dev and local. -/
def finalizeVersion (v : Version) : Version :=
  { epoch := v.epoch, release_tuple := [v.major, v.minor, v.micro],
    preview := none, post := none, dev := none, local_ := none }

/-- `ResetNonSemanticPartsModifier.create_new_version`: keeps epoch, the
stored release tuple and the preview, clears post, dev and local. -/
def resetNonSemanticParts (v : Version) : Version :=
  { epoch := v.epoch, release_tuple := v.release_tuple,
    preview := v.preview, post := none, dev := none, local_ := none }

/-- `EpochIncrementingVersionModifier.create_new_version`: epoch always
increments; with `resetVersion` the version resets to the default release
`(1,)`, with only `removeParts` the exposed release is kept while
preview, post, dev and local are cleared; with neither flag only the
epoch changes. -/
def epochIncrement (removeParts resetVersion : Bool) (v : Version) :
    Version :=
  if resetVersion || removeParts then
    { epoch := v.epoch + 1,
      release_tuple :=
        if resetVersion then [1] else [v.major, v.minor, v.micro],
      preview := none, post := none, dev := none, local_ := none }
  else
    { v with epoch := v.epoch + 1 }

/-- `DevelopmentVersionIncrementingVersionModifier.create_new_version`.
The source sets the dev part unconditionally, also in the preview
branch; the post part is cleared when present on a non-development
version. -/
def developmentIncrement (v : Version) : Version :=
  let devVersion : Nat :=
    match v.dev with
    | some d => d + 1
    | none => 1
  let microVersion : Nat :=
    if v.dev.isNone && v.preview.isNone then v.micro + 1 else v.micro
  let pre : Option (String × Nat) :=
    match v.dev, v.preview with
    | none, some (k, n) => some (k, n + 1)
    | _, _ => none
  { epoch := v.epoch,
    release_tuple := [v.major, v.minor, microVersion],
    preview := match pre with | some p => some p | none => v.preview,
    post :=
      if v.is_post_release && !v.is_development_version then none
      else v.post,
    dev := some devVersion,
    local_ := v.local_ }

/-- `PostVersionIncrementingVersionModifier.create_new_version`: post
number becomes old plus one (or one), and an existing dev part is
cleared. -/
def postIncrement (v : Version) : Version :=
  let postVersion : Nat :=
    match v.post with
    | some p => p + 1
    | none => 1
  { v with post := some postVersion,
           dev := if v.is_development_version then none else v.dev }

/-- `_PreReleaseIncrementingVersionModifier._get_next_release`: the
exposed release padded to three components, with the micro component
incremented only when `incrementMicro` is set and there is no preview. -/
def getNextRelease (incrementMicro : Bool) (v : Version) : List Nat :=
  let m := if incrementMicro && v.preview.isNone then v.micro + 1
           else v.micro
  [v.major, v.minor, m]

/-- `_PreReleaseIncrementingVersionModifier.create_new_version`,
parametrized by the subclass letter and validity predicate.  With no
current preview the part becomes `(letter, 1)`; with a mismatching
preview stage it raises `PreviewMismatchError`; otherwise the number is
old plus one when the stored kind equals the letter, else it resets to
one.  Post, dev and local are dropped from the result. -/
def preReleaseIncrement (letter : String) (isValid : Version → Bool)
    (incrementMicro : Bool) (v : Version) : Except BumpError Version :=
  match v.preview with
  | none =>
      .ok { epoch := v.epoch,
            release_tuple := getNextRelease incrementMicro v,
            preview := some (letter, 1), post := none, dev := none,
            local_ := none }
  | some (k, n) =>
      if !isValid v then .error .previewMismatch
      else
        .ok { epoch := v.epoch,
              release_tuple := getNextRelease incrementMicro v,
              preview := some (letter, if letter == k then n + 1 else 1),
              post := none, dev := none, local_ := none }

/-- `AlphaIncrementingVersionModifier`: letter `a`, valid on alpha. -/
def alphaIncrement (incrementMicro : Bool) (v : Version) :
    Except BumpError Version :=
  preReleaseIncrement "a" Version.is_alpha incrementMicro v

/-- `BetaIncrementingVersionModifier`: letter `b`, valid on alpha or
beta. -/
def betaIncrement (incrementMicro : Bool) (v : Version) :
    Except BumpError Version :=
  preReleaseIncrement "b" (fun w => w.is_alpha || w.is_beta)
    incrementMicro v

/-- `ReleaseCandidateIncrementingVersionModifier`: letter `rc`, valid on
alpha, beta or release candidate. -/
def releaseCandidateIncrement (incrementMicro : Bool) (v : Version) :
    Except BumpError Version :=
  preReleaseIncrement "rc"
    (fun w => w.is_alpha || w.is_beta || w.is_release_candidate)
    incrementMicro v

/-- `PoetryLikePreMajorVersionModifier.create_new_version`: requires a
final version, then major plus one, lower components zero, preview
`(a, 0)`. -/
def poetryPreMajor (v : Version) : Except BumpError Version :=
  if !v.is_final then .error .valueError
  else
    .ok { epoch := v.epoch, release_tuple := [v.major + 1, 0, 0],
          preview := some ("a", 0), post := none, dev := none,
          local_ := none }

/-- `PoetryLikePreMinorVersionModifier.create_new_version`. -/
def poetryPreMinor (v : Version) : Except BumpError Version :=
  if !v.is_final then .error .valueError
  else
    .ok { epoch := v.epoch, release_tuple := [v.major, v.minor + 1, 0],
          preview := some ("a", 0), post := none, dev := none,
          local_ := none }

/-- `PoetryLikePrePatchVersionModifier.create_new_version`. -/
def poetryPrePatch (v : Version) : Except BumpError Version :=
  if !v.is_final then .error .valueError
  else
    .ok { epoch := v.epoch,
          release_tuple := [v.major, v.minor, v.micro + 1],
          preview := some ("a", 0), post := none, dev := none,
          local_ := none }

/-- `PoetryLikePreReleaseVersionModifier.create_new_version`: with a
preview, keep the release and increment the number with the kind
normalized to its short form; without one, bump micro and start at
`(a, 0)`.  Post, dev and local are dropped. -/
def poetryPreRelease (v : Version) : Version :=
  match v.preview with
  | some (_, n) =>
      let pre : Option (String × Nat) :=
        if v.is_alpha then some ("a", n + 1)
        else if v.is_beta then some ("b", n + 1)
        else if v.is_release_candidate then some ("rc", n + 1)
        else none
      { epoch := v.epoch, release_tuple := [v.major, v.minor, v.micro],
        preview := pre, post := none, dev := none, local_ := none }
  | none =>
      { epoch := v.epoch,
        release_tuple := [v.major, v.minor, v.micro + 1],
        preview := some ("a", 0), post := none, dev := none,
        local_ := none }

/-- The closed family of version modifiers implemented in
actions/increment.py, actions/preview.py and actions/poetry_like.py,
with their constructor flags (and the no-op modifier of
actions/version_providers.py). -/
inductive Modifier where
  | majorIncr (removeParts : Bool)
  | minorIncr (removeParts : Bool)
  | microIncr (removeParts : Bool)
  | finalize
  | resetNonSemantic
  | epochIncr (removeParts resetVersion : Bool)
  | alphaIncr (incrementMicro : Bool)
  | betaIncr (incrementMicro : Bool)
  | rcIncr (incrementMicro : Bool)
  | devIncr
  | postIncr
  | preMajor
  | preMinor
  | prePatch
  | preRelease
  | noop
deriving Repr, DecidableEq

/-- `create_new_version` of each modifier of the family. -/
def Modifier.apply : Modifier → Version → Except BumpError Version
  | .majorIncr r, v => .ok (releaseIncrement 0 r v)
  | .minorIncr r, v => .ok (releaseIncrement 1 r v)
  | .microIncr r, v => .ok (releaseIncrement 2 r v)
  | .finalize, v => .ok (finalizeVersion v)
  | .resetNonSemantic, v => .ok (resetNonSemanticParts v)
  | .epochIncr r rs, v => .ok (epochIncrement r rs v)
  | .alphaIncr im, v => alphaIncrement im v
  | .betaIncr im, v => betaIncrement im v
  | .rcIncr im, v => releaseCandidateIncrement im v
  | .devIncr, v => .ok (developmentIncrement v)
  | .postIncr, v => .ok (postIncrement v)
  | .preMajor, v => poetryPreMajor v
  | .preMinor, v => poetryPreMinor v
  | .prePatch, v => poetryPrePatch v
  | .preRelease, v => .ok (poetryPreRelease v)
  | .noop, v => .ok v

/-- The closed commit type enumeration of vcs/history.py. -/
inductive CommitType where
  | Undefined
  | Feature
  | Bugfix
  | Chore
  | QualityAssurance
  | Documentation
  | Build
  | ContinuousIntegration
  | CodeStyle
  | Refactoring
  | Performance
  | Test
deriving Repr, DecidableEq

/-- The default type-to-prefix mapping built by `CommitType.all_values`:
iterating `dir(cls)` yields the member names in alphabetical order, and
the str-mixin enum gives `Undefined` (declared with `auto()`) the value
`1`, hence its mapping entry is the string `1`. -/
def defaultMappings : List (CommitType × String) :=
  [ (.Bugfix, "fix"), (.Build, "build"), (.Chore, "chore"),
    (.CodeStyle, "style"), (.ContinuousIntegration, "ci"),
    (.Documentation, "docs"), (.Feature, "feat"),
    (.Performance, "perf"), (.QualityAssurance, "qa"),
    (.Refactoring, "refactor"), (.Test, "test"), (.Undefined, "1") ]

/-- ASCII whitespace recognized by the regex character class used in the
commit header pattern. -/
def pyIsSpace (c : Char) : Bool :=
  c == ' ' || c == '\t' || c == '\n' || c == '\r'
    || c == Char.ofNat 11 || c == Char.ofNat 12

/-- `ConventionalCommitParser.__get_conventional_commit_prefix`: the
first group of the anchored pattern matching a nonempty run without
colon or exclamation mark, an optional exclamation mark, a colon and a
whitespace character. -/
def conventionalCommitGroup (header : String) : Option (List Char) :=
  let run := header.data.takeWhile (fun c => !(c == ':' || c == '!'))
  let rest := header.data.drop run.length
  if run.isEmpty then none
  else
    match rest with
    | '!' :: ':' :: c :: _ =>
        if pyIsSpace c then some (run ++ ['!']) else none
    | ':' :: c :: _ =>
        if pyIsSpace c then some run else none
    | _ => none

/-- The lookup loop of `parse_commit_type`: the first mapping entry whose
configured string starts the captured group decides (the source tests
`group.startswith(configured)`), `Undefined` when none does. -/
def firstStartsWith : List (CommitType × String) → List Char → CommitType
  | [], _ => .Undefined
  | (ct, p) :: rest, g =>
      if p.data.isPrefixOf g then ct else firstStartsWith rest g

/-- `ConventionalCommitParser.parse_commit_type`. -/
def parse_commit_type (mappings : List (CommitType × String))
    (header : String) : CommitType :=
  match conventionalCommitGroup header with
  | none => .Undefined
  | some g => firstStartsWith mappings g

/-- Strip one trailing exclamation mark, as the claim words the lookup. -/
def stripTrailingBang (g : List Char) : List Char :=
  if g.getLast? = some '!' then g.dropLast else g

/-- The lookup as the amended claim words it: strip a trailing
exclamation mark from the captured group first, then take the first
mapped type whose configured string starts the stripped group. -/
def specParseCommitType (mappings : List (CommitType × String))
    (header : String) : CommitType :=
  match conventionalCommitGroup header with
  | none => .Undefined
  | some g => firstStartsWith mappings (stripTrailingBang g)

/-- No configured string of the default mapping contains an exclamation
mark. -/
def noBangInMappings (mappings : List (CommitType × String)) : Prop :=
  ∀ e ∈ mappings, ('!' : Char) ∉ e.2.data

namespace Rating

/-- Rating.UNDEFINED of version_providers.py. -/
def UNDEFINED : Int := 0

/-- Rating.NOOP. -/
def NOOP : Int := 10

/-- Rating.LOCAL. -/
def LOCAL : Int := 20

/-- Rating.DEVELOPMENT. -/
def DEVELOPMENT : Int := 30

/-- Rating.POST. -/
def POST : Int := 40

/-- Rating.PRERELEASE. -/
def PRERELEASE : Int := 50

/-- Rating.MICRO. -/
def MICRO : Int := 60

/-- Rating.MINOR. -/
def MINOR : Int := 70

/-- Rating.MAJOR. -/
def MAJOR : Int := 80

/-- Rating.EPOCH. -/
def EPOCH : Int := 90

end Rating

/-- `CommitStatistics` of vcs/history.py: counts per observed commit type
plus the breaking-change flag. -/
structure CommitStatistics where
  commit_type_count : List (CommitType × Nat) := []
  contains_breaking_changes : Bool := false

/-- `RatingBasedVersionPolicy._get_max_rating`: fold of max over the
rating of every observed commit type starting from minus one, then the
breaking-change rating (MAJOR) and the dirty-repository rating (LOCAL)
when they apply. -/
def getMaxRating (rate : CommitType → Int) (stats : CommitStatistics)
    (isClean : Bool) : Int :=
  let base := stats.commit_type_count.foldl
    (fun acc tc => max acc (rate tc.1)) (-1)
  let withBreaking :=
    if stats.contains_breaking_changes then max base Rating.MAJOR
    else base
  if !isClean then max withBreaking Rating.LOCAL else withBreaking

/-- `RatingBasedVersionPolicy.__select_preview_part`: the stored preview
kind, or `alpha` when there is none. -/
def selectPreviewPart : Option (String × Nat) → String
  | some (k, _) => k
  | none => "alpha"

/-- `RatingBasedVersionPolicy.__shift_preview_part`: `a` and `alpha`
shift to `beta`, everything else is unchanged. -/
def shiftPreviewPart (p : String) : String :=
  if p == "a" || p == "alpha" then "beta" else p

/-- The constructor dispatch of `PreReleaseIncrementingVersionModifier`:
a named part selects the sub-modifier by name or alias (alpha/a, beta/b,
rc/c), anything else raises ValueError. -/
def preReleasePartModifier (part : String) (doIncrementMicro : Bool) :
    Except BumpError Modifier :=
  if part == "alpha" || part == "a" then .ok (.alphaIncr doIncrementMicro)
  else if part == "beta" || part == "b" then
    .ok (.betaIncr doIncrementMicro)
  else if part == "rc" || part == "c" then .ok (.rcIncr doIncrementMicro)
  else .error .valueError

/-- `do_increment_micro` as the constructor computes it at the selector
call sites, which pass increment_micro as false and no_increment_micro
as true. -/
def selectorDoIncrementMicro (v : Version) : Bool :=
  false || !true || !v.is_pre_release

/-- `RatingBasedVersionPolicy.__select_minor_version_modifier`. -/
def selectMinorModifier (v : Version) : Except BumpError Modifier :=
  if v.is_pre_release then
    if v.is_development_version then .ok .resetNonSemantic
    else
      preReleasePartModifier
        (shiftPreviewPart (selectPreviewPart v.preview))
        (selectorDoIncrementMicro v)
  else .ok (.minorIncr true)

/-- `RatingBasedVersionPolicy.__select_micro_version_modifier`. -/
def selectMicroModifier (v : Version) : Except BumpError Modifier :=
  if v.is_pre_release then
    if !v.is_development_version then
      preReleasePartModifier (selectPreviewPart v.preview)
        (selectorDoIncrementMicro v)
    else .ok .resetNonSemantic
  else .ok (.microIncr true)

/-- The exceptions `get_modifier` can raise: `NotImplementedError` for
the LOCAL rating band, `ValueError` bubbling out of the pre-release
modifier constructor. -/
inductive PolicyError where
  | notImplemented
  | valueError
deriving Repr, DecidableEq

/-- `RatingBasedVersionPolicy.get_modifier`: empty statistics give the
no-op; otherwise dispatch on the final maximum rating, highest threshold
first, with the LOCAL band raising NotImplementedError and anything
below it falling through to the no-op. -/
def getModifier (rate : CommitType → Int) (v : Version)
    (stats : CommitStatistics) (isClean : Bool) :
    Except PolicyError Modifier :=
  if stats.commit_type_count.length == 0 then .ok .noop
  else
    let maxR := getMaxRating rate stats isClean
    if maxR ≥ Rating.EPOCH then .ok (.epochIncr true true)
    else if maxR ≥ Rating.MAJOR then .ok (.majorIncr true)
    else if maxR ≥ Rating.MINOR then
      match selectMinorModifier v with
      | .ok m => .ok m
      | .error _ => .error .valueError
    else if maxR ≥ Rating.MICRO then
      match selectMicroModifier v with
      | .ok m => .ok m
      | .error _ => .error .valueError
    else if maxR ≥ Rating.PRERELEASE then .ok .preRelease
    else if maxR ≥ Rating.POST then .ok .postIncr
    else if maxR ≥ Rating.DEVELOPMENT then .ok .devIncr
    else if maxR ≥ Rating.LOCAL then .error .notImplemented
    else .ok .noop

/-- `SetBasedVersionPolicy._rate_commit_type` with the increment sets of
`SemanticVersionPolicy` (epoch, major and local sets empty). -/
def semanticRate (c : CommitType) : Int :=
  if c ∈ ([] : List CommitType) then Rating.EPOCH
  else if c ∈ ([] : List CommitType) then Rating.MAJOR
  else if c ∈ [CommitType.Feature, CommitType.Performance,
      CommitType.Refactoring] then Rating.MINOR
  else if c ∈ [CommitType.Bugfix, CommitType.Chore,
      CommitType.Documentation] then Rating.MICRO
  else if c ∈ [CommitType.Build, CommitType.CodeStyle,
      CommitType.ContinuousIntegration, CommitType.Test] then Rating.POST
  else if c ∈ [CommitType.Undefined] then Rating.DEVELOPMENT
  else if c ∈ ([] : List CommitType) then Rating.LOCAL
  else Rating.NOOP

/-- Numeric value of a decimal digit character. -/
def digitVal (c : Char) : Nat := c.toNat - 48

/-- Value of a most-significant-first decimal digit list. -/
def digitsVal (ds : List Char) : Nat :=
  ds.foldl (fun acc c => 10 * acc + digitVal c) 0

/-- Read a nonempty run of decimal digits as a number, returning the
remaining characters. -/
def parseNat (cs : List Char) : Option (Nat × List Char) :=
  let ds := cs.takeWhile Char.isDigit
  if ds.isEmpty then none
  else some (digitsVal ds, cs.dropWhile Char.isDigit)

/-- A dot, hyphen or underscore: the separators PEP 440 accepts around
pre, post and dev markers and inside local labels. -/
def isSepChar (c : Char) : Bool := c == '.' || c == '-' || c == '_'

/-- Remaining release components: every further `.digits` group, stopping
at the first dot not followed by a digit.  Fueled; the caller passes the
input length, which bounds the iterations. -/
def parseRelTailAux : Nat → List Char → List Nat × List Char
  | 0, cs => ([], cs)
  | f + 1, cs =>
      match cs with
      | c :: rest =>
          if c = '.' then
            match rest with
            | d :: _ =>
                if d.isDigit then
                  let ds := rest.takeWhile Char.isDigit
                  let (tail, r) :=
                    parseRelTailAux f (rest.dropWhile Char.isDigit)
                  (digitsVal ds :: tail, r)
                else ([], cs)
            | [] => ([], cs)
          else ([], cs)
      | [] => ([], cs)

/-- An optional marker number: an optional single separator (consumed
only when digits follow) and an optional digit run, a missing number
reading as zero. -/
def parseOptNum (cs : List Char) : Nat × List Char :=
  let cs1 :=
    match cs with
    | c :: rest =>
        if isSepChar c
            && (match rest with | d :: _ => d.isDigit | [] => false) then
          rest
        else cs
    | [] => cs
  let ds := cs1.takeWhile Char.isDigit
  if ds.isEmpty then (0, cs)
  else (digitsVal ds, cs1.dropWhile Char.isDigit)

/-- Normalization of the accepted pre-release spellings to the canonical
kinds, `c` becoming `rc`. -/
def normalizeKind (w : List Char) : Option String :=
  if w = "alpha".data then some "a"
  else if w = "beta".data then some "b"
  else if w = "rc".data then some "rc"
  else if w = "a".data then some "a"
  else if w = "b".data then some "b"
  else if w = "c".data then some "rc"
  else none

/-- An optional pre-release part: an optional separator, one of the six
letter spellings (taken as a maximal letter run), and an optional
number. -/
def parsePre (cs : List Char) : Option ((String × Nat) × List Char) :=
  let cs1 :=
    match cs with
    | c :: rest => if isSepChar c then rest else cs
    | [] => cs
  let w := cs1.takeWhile Char.isAlpha
  match normalizeKind w with
  | some k =>
      let (n, rest) := parseOptNum (cs1.drop w.length)
      some ((k, n), rest)
  | none => none

/-- A marker word (`post` or `dev`) with an optional leading separator
and an optional number. -/
def parseWordNum (word : List Char) (cs : List Char) :
    Option (Nat × List Char) :=
  let cs1 :=
    match cs with
    | c :: rest => if isSepChar c then rest else cs
    | [] => cs
  if word.isPrefixOf cs1 then some (parseOptNum (cs1.drop word.length))
  else none

/-- Further local label segments: separator plus nonempty alphanumeric
run, repeated.  Fueled; the caller passes the input length. -/
def parseLocalSegsAux : Nat → List Char → List (List Char) × List Char
  | 0, cs => ([], cs)
  | f + 1, cs =>
      match cs with
      | c :: rest =>
          if isSepChar c then
            let seg := rest.takeWhile Char.isAlphanum
            if seg.isEmpty then ([], cs)
            else
              let (segs, r) := parseLocalSegsAux f (rest.drop seg.length)
              (seg :: segs, r)
          else ([], cs)
      | [] => ([], cs)

/-- Dot-joined continuation segments of a local label: every segment
preceded by one dot. -/
def dotJoin (segs : List (List Char)) : List Char :=
  (segs.map (fun s => '.' :: s)).flatten

/-- The local label: a plus sign, then dot-, hyphen- or
underscore-separated nonempty alphanumeric segments, normalized by
joining the segments with dots. -/
def parseLocalPart (cs : List Char) : Option (String × List Char) :=
  match cs with
  | '+' :: rest =>
      let seg := rest.takeWhile Char.isAlphanum
      if seg.isEmpty then none
      else
        let (segs, r) := parseLocalSegsAux rest.length (rest.drop seg.length)
        some (String.mk (seg ++ dotJoin segs), r)
  | _ => none

/-- Run an optional-part recognizer: on success return the part and the
remainder, on failure return nothing and the unchanged input. -/
def parseOptStep {α : Type} (p : List Char → Option (α × List Char))
    (cs : List Char) : Option α × List Char :=
  match p cs with
  | some (x, r) => (some x, r)
  | none => (none, cs)

/-- The version body after the epoch and the first release component:
release tail, then the optional pre, post, dev and local parts, with the
whole input required to be consumed. -/
def parseAfterFirst (ep first : Nat) (cs : List Char) : Option Version :=
  let s1 := parseRelTailAux cs.length cs
  let s2 := parseOptStep parsePre s1.2
  let s3 := parseOptStep (parseWordNum "post".data) s2.2
  let s4 := parseOptStep (parseWordNum "dev".data) s3.2
  let s5 := parseOptStep parseLocalPart s4.2
  if s5.2.isEmpty then
    some { epoch := ep, release_tuple := first :: s1.1, preview := s2.1,
           post := s3.1, dev := s4.1, local_ := s5.1 }
  else none

/-- Modelled from the spec: `Version.from_string` delegates low-level
PEP 440 recognition to the external `packaging` library, which is not
part of this repository; the parser here is modelled from the spec
(sections 4.1 and 6): grammar
`[N!] N(.N)* [(a|b|c|alpha|beta|rc)N] [.postN] [.devN] [+local]` with an
optional dot, hyphen or underscore before the pre, post and dev markers
and between marker and number, a missing marker number reading as zero,
pre-release spellings normalized to `a`, `b`, `rc` (`c` becoming `rc`),
and local segment separators normalized to dots.  Parse failure
(`VersionParserError` in the source) is `none`. -/
def parse (s : String) : Option Version :=
  match parseNat s.data with
  | none => none
  | some (n1, r1) =>
      match r1 with
      | c :: r2 =>
          if c = '!' then
            match parseNat r2 with
            | none => none
            | some (m1, r3) => parseAfterFirst n1 m1 r3
          else parseAfterFirst 0 n1 r1
      | [] => parseAfterFirst 0 n1 r1

/-- `Version.from_string` (see `parse` for the modelling note). -/
def Version.from_string (version : String) : Option Version :=
  parse version

/-- Zero-padding of a stored release tuple to three components, as the
spec words the comparison rule. -/
def pad3 (l : List Nat) : List Nat :=
  l ++ List.replicate (3 - l.length) 0

/-- The canonical preview kinds a parsed version can carry. -/
def canonicalKinds (v : Version) : Prop :=
  ∀ k n, v.preview = some (k, n) → k = "a" ∨ k = "b" ∨ k = "rc"

/-- A local label in parser-normalized shape: a nonempty alphanumeric
segment followed by dot-prefixed nonempty alphanumeric segments. -/
def normalizedLocal (l : String) : Prop :=
  ∃ seg : List Char, ∃ segs : List (List Char),
    seg ≠ [] ∧ (∀ c ∈ seg, c.isAlphanum) ∧
    (∀ s ∈ segs, s ≠ [] ∧ ∀ c ∈ s, c.isAlphanum) ∧
    l = String.mk (seg ++ dotJoin segs)

/-- The decomposed character content of the preview part as the
formatter writes it. -/
def previewChars : Option (String × Nat) → List Char
  | some (k, n) => k.data ++ natDigits n
  | none => []

/-- The decomposed character content of a post or dev part as the
formatter writes it, given the marker word. -/
def markerChars (word : List Char) : Option Nat → List Char
  | some n => '.' :: (word ++ natDigits n)
  | none => []

/-- The decomposed character content of the local part as the formatter
writes it. -/
def localTailChars : Option String → List Char
  | some s => '+' :: s.data
  | none => []

/-- The full character content of `format`. -/
def formatChars (v : Version) : List Char :=
  (if 0 < v.epoch then natDigits v.epoch ++ ['!'] else [])
    ++ natDigits v.major ++ '.' :: natDigits v.minor ++ '.'
    :: natDigits v.micro ++ previewChars v.preview
    ++ markerChars "post".data v.post ++ markerChars "dev".data v.dev
    ++ localTailChars v.local_

/-- The version a canonical reparse yields: the same fields with the
release re-exposed as the padded three components. -/
def canonical (v : Version) : Version :=
  { epoch := v.epoch, release_tuple := [v.major, v.minor, v.micro],
    preview := v.preview, post := v.post, dev := v.dev,
    local_ := v.local_ }

/-- A character list that does not start with a digit. -/
def noDigitHead : List Char → Prop
  | [] => True
  | c :: _ => c.isDigit = false

/-- A character list whose head, if any, is not a digit (stated as a
falsum for the empty list where a digit is demanded). -/
def headDigitFalse : List Char → Prop
  | [] => False
  | d :: _ => d.isDigit = false

/-- A character list on which the release-tail loop stops: empty, not
dot-led, or a dot followed by a non-digit. -/
def relStop : List Char → Prop
  | [] => True
  | c :: rest => c = '.' → headDigitFalse rest

/-- The shape every output of `parse` has: canonical preview kinds and a
normalized local label. -/
def parsedShape (v : Version) : Prop :=
  canonicalKinds v ∧ ∀ l, v.local_ = some l → normalizedLocal l

/-- A concrete parsed version used to instantiate the round-trip
statement. -/
def roundtripWitnessVersion : Version :=
  { epoch := 1, release_tuple := [1, 2, 3], preview := some ("rc", 4),
    post := some 5, dev := some 6, local_ := some "ab.7x" }

deriving instance DecidableEq for Except

/-- The exposed release of a version whose stored tuple has exactly three
components is that triple. -/
theorem release_of_triple (e : Nat) (a b c : Nat)
    (p : Option (String × Nat)) (ps d : Option Nat) (lo : Option String) :
    Version.release
        { epoch := e, release_tuple := [a, b, c], preview := p, post := ps,
          dev := d, local_ := lo } = (a, b, c) := by
  simp [Version.release, Version.major, Version.minor, Version.micro]

/-- C2 (amended): `DevelopmentVersionIncrementingVersionModifier`
implements this three-way branch: with a dev part set, the dev number
increments and every other part is unchanged (the stored release being
re-exposed as the padded three components); with a preview and no dev
part, the preview number increments AND the dev part is set to
`("dev", 1)`, an existing post part clearing; with neither, micro
increments, the dev part becomes `("dev", 1)` and an existing post part
clears. -/
theorem development_increment_three_branches (v : Version) :
    (∀ d, v.dev = some d →
      developmentIncrement v =
        { epoch := v.epoch, release_tuple := [v.major, v.minor, v.micro],
          preview := v.preview, post := v.post, dev := some (d + 1),
          local_ := v.local_ }) ∧
    (∀ k n, v.dev = none → v.preview = some (k, n) →
      developmentIncrement v =
        { epoch := v.epoch, release_tuple := [v.major, v.minor, v.micro],
          preview := some (k, n + 1), post := none, dev := some 1,
          local_ := v.local_ }) ∧
    (v.dev = none → v.preview = none →
      developmentIncrement v =
        { epoch := v.epoch,
          release_tuple := [v.major, v.minor, v.micro + 1],
          preview := none, post := none, dev := some 1,
          local_ := v.local_ }) := by
  refine ⟨?_, ?_, ?_⟩
  · intro d hd
    simp [developmentIncrement, hd, Version.is_post_release,
      Version.is_development_version]
  · intro k n hd hp
    cases hq : v.post <;>
      simp [developmentIncrement, hd, hp, hq, Version.is_post_release,
        Version.is_development_version]
  · intro hd hp
    cases hq : v.post <;>
      simp [developmentIncrement, hd, hp, hq, Version.is_post_release,
        Version.is_development_version]

/-- C2 witness: the dev-less, preview-less branch on 1.2.3 with a post
part gives 1.2.4.dev1. -/
theorem development_increment_three_branches_witness :
    developmentIncrement
        { epoch := 0, release_tuple := [1, 2, 3], preview := none,
          post := some 6, dev := none, local_ := none } =
      { epoch := 0, release_tuple := [1, 2, 4], preview := none,
        post := none, dev := some 1, local_ := none } := by
  simpa using (development_increment_three_branches
    { epoch := 0, release_tuple := [1, 2, 3], preview := none,
      post := some 6, dev := none, local_ := none }).2.2 rfl rfl

/-- C2 counterexample: on 1.2.0a1 (preview set, no dev part) the code
bumps the preview to a2 but ALSO sets the dev part to `("dev", 1)`,
where the claim requires the dev part to stay absent. -/
theorem development_increment_preview_sets_dev :
    developmentIncrement
        { epoch := 0, release_tuple := [1, 2, 0],
          preview := some ("a", 1), post := none, dev := none,
          local_ := none } =
      { epoch := 0, release_tuple := [1, 2, 0], preview := some ("a", 2),
        post := none, dev := some 1, local_ := none } ∧
    (some 1 : Option Nat) ≠ none := by decide

/-- C6 (amended): `AlphaIncrement` raises `PreviewMismatchError` on every
beta or release-candidate version and `BetaIncrement` raises it on every
release-candidate version (the raising paths return no version value by
construction); on an alpha version `AlphaIncrement` succeeds, the new
preview number being the old plus one when the stored kind is the
canonical `a` and resetting to one when it is the long form `alpha`
(which normalizes to `a`); symmetrically for `BetaIncrement` on a beta
version with kinds `b` and `beta`. -/
theorem pre_release_guard (v : Version) (im : Bool) :
    (∀ k n, v.preview = some (k, n) →
        (k = "b" ∨ k = "beta" ∨ k = "c" ∨ k = "rc") →
        alphaIncrement im v = .error .previewMismatch) ∧
    (∀ k n, v.preview = some (k, n) → (k = "c" ∨ k = "rc") →
        betaIncrement im v = .error .previewMismatch) ∧
    (∀ n, v.preview = some ("a", n) →
        alphaIncrement im v =
          .ok { epoch := v.epoch,
                release_tuple := [v.major, v.minor, v.micro],
                preview := some ("a", n + 1), post := none, dev := none,
                local_ := none }) ∧
    (∀ n, v.preview = some ("alpha", n) →
        alphaIncrement im v =
          .ok { epoch := v.epoch,
                release_tuple := [v.major, v.minor, v.micro],
                preview := some ("a", 1), post := none, dev := none,
                local_ := none }) ∧
    (∀ n, v.preview = some ("b", n) →
        betaIncrement im v =
          .ok { epoch := v.epoch,
                release_tuple := [v.major, v.minor, v.micro],
                preview := some ("b", n + 1), post := none, dev := none,
                local_ := none }) ∧
    (∀ n, v.preview = some ("beta", n) →
        betaIncrement im v =
          .ok { epoch := v.epoch,
                release_tuple := [v.major, v.minor, v.micro],
                preview := some ("b", 1), post := none, dev := none,
                local_ := none }) := by
  refine ⟨?_, ?_, ?_, ?_, ?_, ?_⟩
  · intro k n hp hk
    rcases hk with h | h | h | h <;> subst h <;>
      simp [alphaIncrement, preReleaseIncrement, hp, Version.is_alpha]
  · intro k n hp hk
    rcases hk with h | h <;> subst h <;>
      simp [betaIncrement, preReleaseIncrement, hp, Version.is_alpha,
        Version.is_beta]
  · intro n hp
    simp [alphaIncrement, preReleaseIncrement, hp, Version.is_alpha,
      getNextRelease]
  · intro n hp
    simp [alphaIncrement, preReleaseIncrement, hp, Version.is_alpha,
      getNextRelease]
  · intro n hp
    simp [betaIncrement, preReleaseIncrement, hp, Version.is_alpha,
      Version.is_beta, getNextRelease]
  · intro n hp
    simp [betaIncrement, preReleaseIncrement, hp, Version.is_alpha,
      Version.is_beta, getNextRelease]

/-- C6 witness: alpha on 1.2.3rc1 raises, alpha on 1.2.3a1 gives a2. -/
theorem pre_release_guard_witness :
    alphaIncrement false
        { epoch := 0, release_tuple := [1, 2, 3],
          preview := some ("rc", 1), post := none, dev := none,
          local_ := none } = .error .previewMismatch ∧
    alphaIncrement false
        { epoch := 0, release_tuple := [1, 2, 3],
          preview := some ("a", 1), post := none, dev := none,
          local_ := none } =
      .ok { epoch := 0, release_tuple := [1, 2, 3],
            preview := some ("a", 2), post := none, dev := none,
            local_ := none } := by
  constructor
  · exact (pre_release_guard
      { epoch := 0, release_tuple := [1, 2, 3],
        preview := some ("rc", 1), post := none, dev := none,
        local_ := none } false).1 "rc" 1 rfl (by simp)
  · simpa using (pre_release_guard
      { epoch := 0, release_tuple := [1, 2, 3],
        preview := some ("a", 1), post := none, dev := none,
        local_ := none } false).2.2.1 1 rfl

/-- C6 counterexample: on the alpha version with stored long-form kind
`("alpha", 3)` the alpha increment succeeds but resets the preview
number to one instead of returning the old number plus one. -/
theorem alpha_long_form_resets_number :
    Version.is_alpha
        { epoch := 0, release_tuple := [1, 2, 3],
          preview := some ("alpha", 3), post := none, dev := none,
          local_ := none } = true ∧
    alphaIncrement false
        { epoch := 0, release_tuple := [1, 2, 3],
          preview := some ("alpha", 3), post := none, dev := none,
          local_ := none } =
      .ok { epoch := 0, release_tuple := [1, 2, 3],
            preview := some ("a", 1), post := none, dev := none,
            local_ := none } ∧
    (1 : Nat) ≠ 3 + 1 := by decide

/-- C7: `EpochIncrementingVersionModifier` increments the epoch in every
flag combination; with `reset_version` the result is the default release
`(1,)` with preview, post, dev and local cleared; with only
`remove_parts` the exposed release is kept while the four non-final
parts clear; with neither flag only the epoch changes; and 1.2.3 with
both flags off formats as 1!1.2.3. -/
theorem epoch_increment_exact (v : Version) :
    epochIncrement false false v = { v with epoch := v.epoch + 1 } ∧
    (∀ r, epochIncrement r true v =
      { epoch := v.epoch + 1, release_tuple := [1], preview := none,
        post := none, dev := none, local_ := none }) ∧
    epochIncrement true false v =
      { epoch := v.epoch + 1,
        release_tuple := [v.major, v.minor, v.micro], preview := none,
        post := none, dev := none, local_ := none } ∧
    (epochIncrement true false v).release = v.release ∧
    (∀ r rs, (epochIncrement r rs v).epoch = v.epoch + 1) ∧
    (Version.from_string "1.2.3").map
        (fun w => format (epochIncrement false false w)) =
      some "1!1.2.3" := by
  refine ⟨rfl, ?_, rfl, ?_, ?_, by decide⟩
  · intro r
    cases r <;> rfl
  · simp [epochIncrement, Version.release, Version.major, Version.minor,
      Version.micro]
  · intro r rs
    cases r <;> cases rs <;> rfl

/-- C10 (amended): the release increments operate on the conceptual
zero-padded three components exposed by `release`, not on the stored
tuple: the result tuple is always the padded triple with the addressed
component incremented and later ones zeroed, so minor and micro
increments on from_string("1") give 1.1.0 and 1.0.1. -/
theorem release_increment_uses_padded_release (v : Version) (r : Bool) :
    (releaseIncrement 0 r v).release_tuple = [v.major + 1, 0, 0] ∧
    (releaseIncrement 1 r v).release_tuple = [v.major, v.minor + 1, 0] ∧
    (releaseIncrement 2 r v).release_tuple =
      [v.major, v.minor, v.micro + 1] ∧
    (Version.from_string "1").map
        (fun w => format (releaseIncrement 1 true w)) = some "1.1.0" ∧
    (Version.from_string "1").map
        (fun w => format (releaseIncrement 2 true w)) = some "1.0.1" := by
  refine ⟨?_, ?_, ?_, by decide, by decide⟩ <;>
    cases r <;>
      simp [releaseIncrement, updateReleasePart, List.mapIdx_cons]

/-- C10 counterexample: on from_string("1"), whose stored release tuple
is `(1,)`, the minor increment changes the release tuple to `(1, 1, 0)`
and the result formats as 1.1.0, not 1.0.0. -/
theorem minor_increment_on_short_release :
    (Version.from_string "1").map
        (fun w => (releaseIncrement 1 true w).release_tuple) =
      some [1, 1, 0] ∧
    (some [1, 1, 0] : Option (List Nat)) ≠ some [1] ∧
    (Version.from_string "1").map
        (fun w => format (releaseIncrement 1 true w)) = some "1.1.0" ∧
    "1.1.0" ≠ "1.0.0" := by decide

/-- A prefix test against a captured group with a final exclamation mark
agrees with the test against the group without it, for patterns that
contain no exclamation mark. -/
theorem isPrefixOf_concat_bang {p run : List Char}
    (hp : ('!' : Char) ∉ p) :
    p.isPrefixOf (run ++ ['!']) = p.isPrefixOf run := by
  cases hb : p.isPrefixOf run with
  | true =>
      exact List.isPrefixOf_iff_prefix.mpr
        (List.prefix_concat_iff.mpr
          (Or.inr (List.isPrefixOf_iff_prefix.mp hb)))
  | false =>
      refine Bool.eq_false_iff.mpr ?_
      intro hc
      rcases List.prefix_concat_iff.mp
          (List.isPrefixOf_iff_prefix.mp hc) with h | h
      · exact hp (by rw [h]; simp)
      · rw [List.isPrefixOf_iff_prefix.mpr h] at hb
        exact absurd hb (by simp)

/-- The first-match lookup gives the same result on a captured group with
and without its final exclamation mark when no configured string
contains one. -/
theorem firstStartsWith_concat_bang (l : List (CommitType × String))
    (hl : ∀ e ∈ l, ('!' : Char) ∉ e.2.data) (run : List Char) :
    firstStartsWith l (run ++ ['!']) = firstStartsWith l run := by
  induction l with
  | nil => rfl
  | cons e rest ih =>
      obtain ⟨ct, p⟩ := e
      have hb : ('!' : Char) ∉ p.data := hl ⟨ct, p⟩ (by simp)
      simp only [firstStartsWith, isPrefixOf_concat_bang hb]
      cases hp : p.data.isPrefixOf run
      · simp only [Bool.false_eq_true, if_false]
        exact ih (fun e he => hl e (List.mem_cons_of_mem _ he))
      · simp

/-- Any captured group of the commit header pattern is either free of
exclamation marks or the bang-free run followed by one final
exclamation mark. -/
theorem conventionalCommitGroup_shape (header : String) (g : List Char)
    (h : conventionalCommitGroup header = some g) :
    (('!' : Char) ∉ g ∧ stripTrailingBang g = g) ∨
      (∃ run, ('!' : Char) ∉ run ∧ g = run ++ ['!'] ∧
        stripTrailingBang g = run) := by
  have hnb : ('!' : Char) ∉
      header.data.takeWhile (fun c => !(c == ':' || c == '!')) := by
    intro hm
    have := List.mem_takeWhile_imp hm
    simp at this
  simp only [conventionalCommitGroup] at h
  split at h
  · exact absurd h (by simp)
  · split at h
    · split at h
      · rename_i heq _
        right
        refine ⟨_, hnb, ?_, ?_⟩
        · exact (Option.some_injective _ h).symm
        · rw [(Option.some_injective _ h).symm]
          simp [stripTrailingBang, List.getLast?_concat,
            List.dropLast_concat]
      · exact absurd h (by simp)
    · split at h
      · left
        have hg : g = header.data.takeWhile
            (fun c => !(c == ':' || c == '!')) :=
          (Option.some_injective _ h).symm
        subst hg
        refine ⟨hnb, ?_⟩
        simp only [stripTrailingBang]
        split
        · rename_i hl
          exact absurd (List.mem_of_mem_getLast? hl) hnb
        · rfl
      · exact absurd h (by simp)
    · exact absurd h (by simp)

/-- C5 (amended): `parse_commit_type` matches the leading pattern and
then returns the first configured mapping entry whose string starts the
captured group (the source tests `startswith`, it does not strip the
exclamation mark nor require equality); this is equivalent to stripping
the trailing exclamation mark first, because no configured string
contains one; a captured group that merely extends a configured string,
like `testing`, therefore yields that entry's type, not `Undefined`;
`Undefined` results when the header does not match or no configured
string starts the group. -/
theorem parse_commit_type_eq_strip_spec (header : String) :
    parse_commit_type defaultMappings header =
      specParseCommitType defaultMappings header := by
  unfold parse_commit_type specParseCommitType
  cases hg : conventionalCommitGroup header with
  | none => rfl
  | some g =>
      rcases conventionalCommitGroup_shape header g hg with
        ⟨_, hs⟩ | ⟨run, hnb, hgr, hs⟩
      · show firstStartsWith defaultMappings g =
          firstStartsWith defaultMappings (stripTrailingBang g)
        rw [hs]
      · show firstStartsWith defaultMappings g =
          firstStartsWith defaultMappings (stripTrailingBang g)
        rw [hs, hgr]
        exact firstStartsWith_concat_bang defaultMappings (by decide) run

/-- C5 counterexample: the header `testing: tweak` captures `testing`,
which merely extends the configured `test`, yet the code classifies it
as `Test` where the claim requires `Undefined`. -/
theorem commit_type_extended_group_matches :
    parse_commit_type defaultMappings "testing: tweak" =
      CommitType.Test ∧
    CommitType.Test ≠ CommitType.Undefined := by decide

/-- C8: on non-empty statistics, `get_modifier` raises
`NotImplementedError` exactly when the final maximum rating (maximum
over the ratings of the observed commit types, folded with MAJOR on
breaking changes and LOCAL on a dirty repository) lies in the band from
LOCAL up to but excluding DEVELOPMENT, and returns the no-op modifier
for any final rating below LOCAL. -/
theorem policy_local_band (rate : CommitType → Int) (v : Version)
    (stats : CommitStatistics) (isClean : Bool)
    (h : stats.commit_type_count ≠ []) :
    (getModifier rate v stats isClean = .error .notImplemented ↔
      Rating.LOCAL ≤ getMaxRating rate stats isClean ∧
        getMaxRating rate stats isClean < Rating.DEVELOPMENT) ∧
    (getMaxRating rate stats isClean < Rating.LOCAL →
      getModifier rate v stats isClean = .ok .noop) := by
  have hne : (stats.commit_type_count.length == 0) = false := by
    simp [List.length_eq_zero, h]
  simp only [getModifier, hne, Bool.false_eq_true, if_false,
    Rating.EPOCH, Rating.MAJOR, Rating.MINOR, Rating.MICRO,
    Rating.PRERELEASE, Rating.POST, Rating.DEVELOPMENT, Rating.LOCAL]
  set m := getMaxRating rate stats isClean with hm
  constructor
  · constructor
    · intro hc
      split_ifs at hc <;>
        first
          | exact ⟨by omega, by omega⟩
          | simp at hc
          | (rcases hsel : selectMinorModifier v with e | mm <;>
              rw [hsel] at hc <;> simp at hc)
          | (rcases hsel : selectMicroModifier v with e | mm <;>
              rw [hsel] at hc <;> simp at hc)
    · intro hc
      rw [if_neg (by omega), if_neg (by omega), if_neg (by omega)]
      rw [if_neg (by omega), if_neg (by omega), if_neg (by omega)]
      rw [if_neg (by omega), if_pos (by omega)]
  · intro hc
    rw [if_neg (by omega), if_neg (by omega), if_neg (by omega)]
    rw [if_neg (by omega), if_neg (by omega), if_neg (by omega)]
    rw [if_neg (by omega), if_neg (by omega)]

/-- C8 witness: a dirty repository whose only observed type rates NOOP
(QualityAssurance under the semantic policy) lands in the LOCAL band
and raises. -/
theorem policy_local_band_witness :
    getModifier semanticRate
        { epoch := 0, release_tuple := [1, 0, 0], preview := none,
          post := none, dev := none, local_ := none }
        { commit_type_count := [(CommitType.QualityAssurance, 2)],
          contains_breaking_changes := false } false =
      .error .notImplemented :=
  ((policy_local_band semanticRate
      { epoch := 0, release_tuple := [1, 0, 0], preview := none,
        post := none, dev := none, local_ := none }
      { commit_type_count := [(CommitType.QualityAssurance, 2)],
        contains_breaking_changes := false } false (by decide)).1).mpr
    (by decide)

/-- C3 (amended): at the MINOR threshold the selector picks, for a
development pre-release, the reset-non-semantic modifier, which clears
post, dev and local but KEEPS the preview (it does not finalize it);
for a non-development pre-release it selects the beta incrementer when
the stored kind is an alpha or beta spelling and the rc incrementer
otherwise, whose application keeps the exposed release, normalizes the
kind to `b` or `rc`, gives the number old-plus-one exactly when the
stored kind is already the canonical target (`b` or `rc`) and resets it
to one otherwise, and clears post, dev and local; for every other
version it selects the ordinary minor increment. -/
theorem minor_aware_selector_behavior (v : Version) :
    (v.dev.isSome = true →
      selectMinorModifier v = .ok .resetNonSemantic ∧
      Modifier.resetNonSemantic.apply v =
        .ok { epoch := v.epoch, release_tuple := v.release_tuple,
              preview := v.preview, post := none, dev := none,
              local_ := none }) ∧
    (∀ k n, v.preview = some (k, n) → v.dev = none →
      Version.validKind k = true →
      selectMinorModifier v =
        .ok (if k = "a" ∨ k = "alpha" ∨ k = "b" ∨ k = "beta"
             then Modifier.betaIncr false else Modifier.rcIncr false) ∧
      Modifier.apply
          (if k = "a" ∨ k = "alpha" ∨ k = "b" ∨ k = "beta"
           then Modifier.betaIncr false else Modifier.rcIncr false) v =
        .ok { epoch := v.epoch,
              release_tuple := [v.major, v.minor, v.micro],
              preview := some
                (if k = "a" ∨ k = "alpha" ∨ k = "b" ∨ k = "beta"
                 then "b" else "rc",
                 if k = "b" ∨ k = "rc" then n + 1 else 1),
              post := none, dev := none, local_ := none }) ∧
    (v.preview = none → v.dev = none →
      selectMinorModifier v = .ok (.minorIncr true)) := by
  refine ⟨?_, ?_, ?_⟩
  · intro hd
    constructor
    · simp [selectMinorModifier, Version.is_pre_release,
        Version.is_development_version, hd]
    · simp [Modifier.apply, resetNonSemanticParts]
  · intro k n hp hd hk
    have hk6 : ((((k = "a" ∨ k = "b") ∨ k = "c") ∨ k = "alpha")
        ∨ k = "beta") ∨ k = "rc" := by
      simpa [Version.validKind] using hk
    rcases hk6 with ((((h | h) | h) | h) | h) | h <;> subst h <;>
      constructor <;>
        simp [selectMinorModifier, Version.is_pre_release,
          Version.is_development_version, hp, hd, selectPreviewPart,
          shiftPreviewPart, preReleasePartModifier,
          selectorDoIncrementMicro, Modifier.apply, betaIncrement,
          releaseCandidateIncrement, preReleaseIncrement,
          Version.is_alpha, Version.is_beta,
          Version.is_release_candidate, getNextRelease]
  · intro hp hd
    simp [selectMinorModifier, Version.is_pre_release,
      Version.is_development_version, hp, hd]

/-- C3 witness: a beta version at the MINOR threshold keeps the kind and
increments the number. -/
theorem minor_aware_selector_behavior_witness :
    selectMinorModifier
        { epoch := 0, release_tuple := [1, 2, 3],
          preview := some ("b", 2), post := none, dev := none,
          local_ := none } = .ok (Modifier.betaIncr false) ∧
    Modifier.apply (Modifier.betaIncr false)
        { epoch := 0, release_tuple := [1, 2, 3],
          preview := some ("b", 2), post := none, dev := none,
          local_ := none } =
      .ok { epoch := 0, release_tuple := [1, 2, 3],
            preview := some ("b", 3), post := none, dev := none,
            local_ := none } := by
  have h := (minor_aware_selector_behavior
    { epoch := 0, release_tuple := [1, 2, 3], preview := some ("b", 2),
      post := none, dev := none, local_ := none }).2.1 "b" 2 rfl rfl
    (by decide)
  simpa using h

/-- C3 counterexample: on the development pre-release 1.2.3a1.dev2 the
selected modifier keeps the preview instead of finalizing it, and on
1.2.3a5 the selected modifier yields b1, not a number incremented to
six. -/
theorem minor_aware_selector_claim_fails :
    selectMinorModifier
        { epoch := 0, release_tuple := [1, 2, 3],
          preview := some ("a", 1), post := none, dev := some 2,
          local_ := none } = .ok Modifier.resetNonSemantic ∧
    Modifier.resetNonSemantic.apply
        { epoch := 0, release_tuple := [1, 2, 3],
          preview := some ("a", 1), post := none, dev := some 2,
          local_ := none } =
      .ok { epoch := 0, release_tuple := [1, 2, 3],
            preview := some ("a", 1), post := none, dev := none,
            local_ := none } ∧
    (some ("a", 1) : Option (String × Nat)) ≠ none ∧
    selectMinorModifier
        { epoch := 0, release_tuple := [1, 2, 3],
          preview := some ("a", 5), post := none, dev := none,
          local_ := none } = .ok (Modifier.betaIncr false) ∧
    Modifier.apply (Modifier.betaIncr false)
        { epoch := 0, release_tuple := [1, 2, 3],
          preview := some ("a", 5), post := none, dev := none,
          local_ := none } =
      .ok { epoch := 0, release_tuple := [1, 2, 3],
            preview := some ("b", 1), post := none, dev := none,
            local_ := none } ∧
    (1 : Nat) ≠ 5 + 1 := by decide

/-- Pair comparison unfolds componentwise. -/
theorem prod_beq_mk {α β : Type} [BEq α] [BEq β] (a c : α) (b d : β) :
    ((a, b) == (c, d)) = (a == c && b == d) := rfl

/-- Python equality on int slots. -/
theorem pyEq_int (a b : Nat) :
    pyEq (PyVal.pyInt a) (PyVal.pyInt b) = (a == b) := rfl

/-- Python equality on encoded preview slots is option-pair equality. -/
theorem pyEq_encPreview (a b : Option (String × Nat)) :
    pyEq (Version.encPreview a) (Version.encPreview b) = (a == b) := by
  rcases a with _ | ⟨k, n⟩ <;> rcases b with _ | ⟨k', n'⟩ <;>
    simp [pyEq, pyEqList, Version.encPreview, Bool.and_true] <;> rfl

/-- Python equality on encoded post and dev slots is option equality of
the numbers, the fixed tag comparing equal to itself. -/
theorem pyEq_encTagged (t : String) (a b : Option Nat) :
    pyEq (Version.encTagged t a) (Version.encTagged t b) = (a == b) := by
  rcases a <;> rcases b <;>
    simp [pyEq, pyEqList, Version.encTagged, Bool.and_true]

/-- Python equality on encoded local slots is option equality. -/
theorem pyEq_encLocal (a b : Option String) :
    pyEq (Version.encLocal a) (Version.encLocal b) = (a == b) := by
  rcases a <;> rcases b <;> simp [pyEq, Version.encLocal]

/-- Python equality on the release triples. -/
theorem pyEq_triple (a b c a' b' c' : Nat) :
    pyEq (PyVal.pyTuple [.pyInt a, .pyInt b, .pyInt c])
        (PyVal.pyTuple [.pyInt a', .pyInt b', .pyInt c']) =
      (a == a' && (b == b' && c == c')) := by
  simp [pyEq, pyEqList, Bool.and_true]

/-- `__eq__` agrees with Python tuple equality of the two data tuples. -/
theorem veq_eq_pyEqList_aux (v w : Version) :
    Version.veq v w = pyEqList (Version.encode v) (Version.encode w) := by
  simp only [Version.encode, pyEqList, pyEq_encPreview, pyEq_encTagged,
    pyEq_encLocal, pyEq_triple]
  simp [Version.veq, Version.release, pyEq, prod_beq_mk, Bool.and_true,
    Bool.and_assoc]

/-- For a stored release tuple of at most three components, the exposed
three components are exactly the zero-padded stored tuple. -/
theorem release_pad3_aux (v : Version)
    (h : v.release_tuple.length ≤ 3) :
    [v.major, v.minor, v.micro] = pad3 v.release_tuple := by
  rcases hv : v.release_tuple with _ | ⟨a, _ | ⟨b, _ | ⟨c, _ | ⟨d, t⟩⟩⟩⟩
  · simp [pad3, Version.major, Version.minor, Version.micro, hv,
      List.replicate]
  · simp [pad3, Version.major, Version.minor, Version.micro, hv,
      List.replicate]
  · simp [pad3, Version.major, Version.minor, Version.micro, hv,
      List.replicate]
  · simp [pad3, Version.major, Version.minor, Version.micro, hv,
      List.replicate]
  · rw [hv] at h; simp at h

/-- Equal versions compare defined and not-less under `__lt__`. -/
theorem veq_not_lt_aux (v w : Version)
    (h : Version.veq v w = true) : Version.vlt v w = some false := by
  simp only [Version.veq, Bool.and_eq_true, beq_iff_eq] at h
  obtain ⟨⟨⟨⟨⟨h1, h2⟩, h3⟩, h4⟩, h5⟩, h6⟩ := h
  simp only [Version.release, Prod.mk.injEq] at h2
  obtain ⟨hma, hmi, hmc⟩ := h2
  unfold Version.vlt Version.encode
  rw [h1, hma, hmi, hmc, h3, h4, h5, h6]
  simp [pyLtList, pyEq_int, pyEq_encPreview, pyEq_encTagged,
    pyEq_encLocal, pyEq_triple]

/-- C4 (amended): equality and ordering compare the tuple
`(epoch, release-as-exactly-3-components, preview, post, dev, local)`
under Python tuple semantics; the exposed release equals the zero-padded
stored tuple only up to three stored components (beyond that the code
truncates, so versions differing only past the third component compare
equal, see the counterexample); equality is total and equal versions
order defined and not-less, but the ordering is partial, raising when
the first differing slot pairs None with a value. -/
theorem version_eq_and_ordering_tuple :
    (∀ v w : Version,
      Version.veq v w = pyEqList (Version.encode v) (Version.encode w)) ∧
    (∀ v : Version, v.release_tuple.length ≤ 3 →
      [v.major, v.minor, v.micro] = pad3 v.release_tuple) ∧
    (∀ v w : Version, Version.veq v w = true →
      Version.vlt v w = some false) :=
  ⟨veq_eq_pyEqList_aux, release_pad3_aux, veq_not_lt_aux⟩

/-- C4 witness: padding at the one-component version and the defined
not-less comparison at an equal pair. -/
theorem version_eq_and_ordering_tuple_witness :
    [Version.major
        { epoch := 0, release_tuple := [1], preview := none,
          post := none, dev := none, local_ := none },
      Version.minor
        { epoch := 0, release_tuple := [1], preview := none,
          post := none, dev := none, local_ := none },
      Version.micro
        { epoch := 0, release_tuple := [1], preview := none,
          post := none, dev := none, local_ := none }] = pad3 [1] ∧
    Version.vlt
        { epoch := 0, release_tuple := [1, 2], preview := none,
          post := some 4, dev := none, local_ := none }
        { epoch := 0, release_tuple := [1, 2, 0],
          preview := none, post := some 4, dev := none,
          local_ := none } = some false :=
  ⟨version_eq_and_ordering_tuple.2.1
      { epoch := 0, release_tuple := [1], preview := none,
        post := none, dev := none, local_ := none } (by decide),
    version_eq_and_ordering_tuple.2.2
      { epoch := 0, release_tuple := [1, 2], preview := none,
        post := some 4, dev := none, local_ := none }
      { epoch := 0, release_tuple := [1, 2, 0], preview := none,
        post := some 4, dev := none, local_ := none } (by decide)⟩

/-- C4 counterexample: the versions 1.2.3.4 and 1.2.3.5 differ in their
stored fourth release component yet compare equal, because `release`
truncates to three components rather than padding to equal length; and
the ordering of 1.2.3 against 1.2.3a1 is not defined at all (Python
raises a TypeError on None versus tuple). -/
theorem version_comparison_claim_fails :
    Version.veq
        { epoch := 0, release_tuple := [1, 2, 3, 4], preview := none,
          post := none, dev := none, local_ := none }
        { epoch := 0, release_tuple := [1, 2, 3, 5], preview := none,
          post := none, dev := none, local_ := none } = true ∧
    ([1, 2, 3, 4] : List Nat) ≠ [1, 2, 3, 5] ∧
    Version.vlt
        { epoch := 0, release_tuple := [1, 2, 3], preview := none,
          post := none, dev := none, local_ := none }
        { epoch := 0, release_tuple := [1, 2, 3],
          preview := some ("a", 1), post := none, dev := none,
          local_ := none } = none := by decide


/-- A successor never equals its predecessor. -/
theorem beq_succ_self_t (n : Nat) : (n + 1 == n) = false := by simp

/-- A successor is never below its predecessor. -/
theorem decide_succ_lt_t (n : Nat) : decide (n + 1 < n) = false := by simp

/-- Exhausted equal-length tuples compare not-less. -/
theorem pyLtList_nil : pyLtList [] [] = some false := rfl

/-- One step of Python tuple comparison. -/
theorem pyLtList_cons (a b : PyVal) (r1 r2 : List PyVal) :
    pyLtList (a :: r1) (b :: r2) =
      if pyEq a b = true then pyLtList r1 r2 else pyLt a b := by
  simp [pyLtList]

/-- Python order on int slots. -/
theorem pyLt_int_t (a b : Nat) :
    pyLt (.pyInt a) (.pyInt b) = some (decide (a < b)) := rfl

/-- Python order on the release triples. -/
theorem pyLt_triple_t (a b c a' b' c' : Nat) :
    pyLt (PyVal.pyTuple [.pyInt a, .pyInt b, .pyInt c])
        (PyVal.pyTuple [.pyInt a', .pyInt b', .pyInt c']) =
      if a == a' then
        if b == b' then
          if c == c' then some false else some (decide (c < c'))
        else some (decide (b < b'))
      else some (decide (a < a')) := by
  simp [pyLt, pyLtList, pyEq]

/-- Python order on encoded preview slots: defined only between two
tuples, deciding by kind then number. -/
theorem pyLt_encPreview_t (a b : Option (String × Nat)) :
    pyLt (Version.encPreview a) (Version.encPreview b) =
      match a, b with
      | some (k, n), some (k', n') =>
          if k == k' then
            if n == n' then some false else some (decide (n < n'))
          else some (pyStrLt k k')
      | _, _ => none := by
  rcases a with _ | ⟨k, n⟩ <;> rcases b with _ | ⟨k', n'⟩ <;>
    simp [pyLt, pyLtList, pyEq, Version.encPreview]

/-- Python order on encoded post and dev slots: defined only between
two tuples, the equal tags deferring to the numbers. -/
theorem pyLt_encTagged_t (t : String) (a b : Option Nat) :
    pyLt (Version.encTagged t a) (Version.encTagged t b) =
      match a, b with
      | some n, some n' =>
          if n == n' then some false else some (decide (n < n'))
      | _, _ => none := by
  rcases a <;> rcases b <;>
    simp [pyLt, pyLtList, pyEq, Version.encTagged]

/-- Python order on encoded local slots. -/
theorem pyLt_encLocal_t (a b : Option String) :
    pyLt (Version.encLocal a) (Version.encLocal b) =
      match a, b with
      | some s, some s' => some (pyStrLt s s')
      | _, _ => none := by
  rcases a <;> rcases b <;> simp [pyLt, Version.encLocal]

example (v : Version) :
    Version.vlt (finalizeVersion v) v ≠ some true := by
  rcases hp : v.preview with _ | p <;> rcases hq : v.post with _ | q <;>
    rcases hd : v.dev with _ | d <;> rcases hl : v.local_ with _ | l <;>
      simp [finalizeVersion, Version.vlt, Version.encode,
        Version.major, Version.minor, Version.micro, hp, hq, hd, hl,
        pyLtList_nil, pyLtList_cons, pyEq_int, pyEq_triple,
        pyEq_encPreview, pyEq_encTagged, pyEq_encLocal, pyLt_int_t,
        pyLt_triple_t, pyLt_encPreview_t, pyLt_encTagged_t,
        pyLt_encLocal_t]

example (v : Version) :
    Version.vlt (postIncrement v) v ≠ some true := by
  rcases hq : v.post with _ | q <;>
    simp [postIncrement, Version.vlt, Version.encode, hq,
      Version.is_development_version, Version.major, Version.minor,
      Version.micro,
      pyLtList_nil, pyLtList_cons, pyEq_int, pyEq_triple,
      pyEq_encPreview, pyEq_encTagged, pyEq_encLocal, pyLt_int_t,
      pyLt_triple_t, pyLt_encPreview_t, pyLt_encTagged_t,
      pyLt_encLocal_t, beq_succ_self_t, decide_succ_lt_t]

example (v : Version) :
    Version.vlt (developmentIncrement v) v ≠ some true := by
  rcases hd : v.dev with _ | d <;>
    rcases hp : v.preview with _ | ⟨k, n⟩ <;>
      simp [developmentIncrement, Version.vlt, Version.encode,
        Version.major, Version.minor, Version.micro, hd, hp,
        Version.is_post_release, Version.is_development_version,
        pyLtList_nil, pyLtList_cons, pyEq_int, pyEq_triple,
        pyEq_encPreview, pyEq_encTagged, pyEq_encLocal, pyLt_int_t,
        pyLt_triple_t, pyLt_encPreview_t, pyLt_encTagged_t,
        pyLt_encLocal_t, beq_succ_self_t, decide_succ_lt_t]

/-- To rule out a false result of `__ge__` it is enough to rule out a
true result of `__lt__`. -/
theorem vge_of_vlt_aux (w v : Version)
    (h : Version.vlt w v ≠ some true) : Version.vge w v ≠ some false := by
  rcases hl : Version.vlt w v with _ | b
  · simp [Version.vge, hl]
  · cases b
    · simp [Version.vge, hl]
    · exact absurd hl h

/-- Concrete kind comparison used by the pre-release cases. -/
theorem pyStrLt_b_a : pyStrLt "b" "a" = false := by decide

/-- Concrete kind comparison used by the pre-release cases. -/
theorem pyStrLt_rc_a : pyStrLt "rc" "a" = false := by decide

/-- Concrete kind comparison used by the pre-release cases. -/
theorem pyStrLt_rc_b : pyStrLt "rc" "b" = false := by decide

/-- C1 (amended): for every modifier of the family and every version
whose preview kind (if any) is one of the parser-canonical `a`, `b`,
`rc`, a successful `create_new_version` never produces a result that
compares below its input: whenever the `__ge__` comparison of result
against input is defined at all, it is true.  The comparison is NOT
always defined (see the counterexample: it raises when the
transformation only adds a preview, post or dev part), and without the
canonical-kind restriction it can even be defined and false. -/
theorem modifier_monotonic_where_defined (m : Modifier) (v w : Version)
    (hk : canonicalKinds v) (h : m.apply v = .ok w) :
    Version.vge w v ≠ some false := by
  apply vge_of_vlt_aux
  cases m with
  | noop =>
      simp [Modifier.apply] at h
      subst h
      rw [veq_not_lt_aux v v (by simp [Version.veq])]
      simp
  | majorIncr r =>
      simp only [Modifier.apply, Except.ok.injEq] at h
      subst h
      cases r <;>
        simp [releaseIncrement, updateReleasePart, List.mapIdx_cons,
          Version.vlt, Version.encode, Version.major, Version.minor,
          Version.micro, pyLtList_nil, pyLtList_cons, pyEq_int,
          pyEq_triple, pyEq_encPreview, pyEq_encTagged, pyEq_encLocal,
          pyLt_int_t, pyLt_triple_t, pyLt_encPreview_t,
          pyLt_encTagged_t, pyLt_encLocal_t, beq_succ_self_t,
          decide_succ_lt_t]
  | minorIncr r =>
      simp only [Modifier.apply, Except.ok.injEq] at h
      subst h
      cases r <;>
        simp [releaseIncrement, updateReleasePart, List.mapIdx_cons,
          Version.vlt, Version.encode, Version.major, Version.minor,
          Version.micro, pyLtList_nil, pyLtList_cons, pyEq_int,
          pyEq_triple, pyEq_encPreview, pyEq_encTagged, pyEq_encLocal,
          pyLt_int_t, pyLt_triple_t, pyLt_encPreview_t,
          pyLt_encTagged_t, pyLt_encLocal_t, beq_succ_self_t,
          decide_succ_lt_t]
  | microIncr r =>
      simp only [Modifier.apply, Except.ok.injEq] at h
      subst h
      cases r <;>
        simp [releaseIncrement, updateReleasePart, List.mapIdx_cons,
          Version.vlt, Version.encode, Version.major, Version.minor,
          Version.micro, pyLtList_nil, pyLtList_cons, pyEq_int,
          pyEq_triple, pyEq_encPreview, pyEq_encTagged, pyEq_encLocal,
          pyLt_int_t, pyLt_triple_t, pyLt_encPreview_t,
          pyLt_encTagged_t, pyLt_encLocal_t, beq_succ_self_t,
          decide_succ_lt_t]
  | finalize =>
      simp only [Modifier.apply, Except.ok.injEq] at h
      subst h
      rcases hp : v.preview with _ | p <;>
        rcases hq : v.post with _ | q <;>
          rcases hd : v.dev with _ | d <;>
            rcases hl : v.local_ with _ | l <;>
              simp [finalizeVersion, Version.vlt, Version.encode,
                Version.major, Version.minor, Version.micro, hp, hq, hd,
                hl, pyLtList_nil, pyLtList_cons, pyEq_int, pyEq_triple,
                pyEq_encPreview, pyEq_encTagged, pyEq_encLocal,
                pyLt_int_t, pyLt_triple_t, pyLt_encPreview_t,
                pyLt_encTagged_t, pyLt_encLocal_t]
  | resetNonSemantic =>
      simp only [Modifier.apply, Except.ok.injEq] at h
      subst h
      rcases hq : v.post with _ | q <;>
        rcases hd : v.dev with _ | d <;>
          rcases hl : v.local_ with _ | l <;>
            simp [resetNonSemanticParts, Version.vlt, Version.encode,
              Version.major, Version.minor, Version.micro, hq, hd, hl,
              pyLtList_nil, pyLtList_cons, pyEq_int, pyEq_triple,
              pyEq_encPreview, pyEq_encTagged, pyEq_encLocal,
              pyLt_int_t, pyLt_triple_t, pyLt_encPreview_t,
              pyLt_encTagged_t, pyLt_encLocal_t]
  | epochIncr r rs =>
      simp only [Modifier.apply, Except.ok.injEq] at h
      subst h
      cases r <;> cases rs <;>
        simp [epochIncrement, Version.vlt, Version.encode,
          Version.major, Version.minor, Version.micro, pyLtList_nil,
          pyLtList_cons, pyEq_int, pyEq_triple, pyEq_encPreview,
          pyEq_encTagged, pyEq_encLocal, pyLt_int_t, pyLt_triple_t,
          pyLt_encPreview_t, pyLt_encTagged_t, pyLt_encLocal_t,
          beq_succ_self_t, decide_succ_lt_t]
  | devIncr =>
      simp only [Modifier.apply, Except.ok.injEq] at h
      subst h
      rcases hd : v.dev with _ | d <;>
        rcases hp : v.preview with _ | ⟨k, n⟩ <;>
          simp [developmentIncrement, Version.vlt, Version.encode,
            Version.major, Version.minor, Version.micro, hd, hp,
            Version.is_post_release, Version.is_development_version,
            pyLtList_nil, pyLtList_cons, pyEq_int, pyEq_triple,
            pyEq_encPreview, pyEq_encTagged, pyEq_encLocal, pyLt_int_t,
            pyLt_triple_t, pyLt_encPreview_t, pyLt_encTagged_t,
            pyLt_encLocal_t, beq_succ_self_t, decide_succ_lt_t]
  | postIncr =>
      simp only [Modifier.apply, Except.ok.injEq] at h
      subst h
      rcases hq : v.post with _ | q <;>
        simp [postIncrement, Version.vlt, Version.encode, hq,
          Version.is_development_version, Version.major, Version.minor,
          Version.micro, pyLtList_nil, pyLtList_cons, pyEq_int,
          pyEq_triple, pyEq_encPreview, pyEq_encTagged, pyEq_encLocal,
          pyLt_int_t, pyLt_triple_t, pyLt_encPreview_t,
          pyLt_encTagged_t, pyLt_encLocal_t, beq_succ_self_t,
          decide_succ_lt_t]
  | alphaIncr im =>
      simp only [Modifier.apply, alphaIncrement,
        preReleaseIncrement] at h
      rcases hp : v.preview with _ | ⟨k, n⟩
      · rw [hp] at h
        simp only [Except.ok.injEq] at h
        subst h
        cases im <;>
          simp [getNextRelease, hp, Version.vlt, Version.encode,
            Version.major, Version.minor, Version.micro, pyLtList_nil,
            pyLtList_cons, pyEq_int, pyEq_triple, pyEq_encPreview,
            pyEq_encTagged, pyEq_encLocal, pyLt_int_t, pyLt_triple_t,
            pyLt_encPreview_t, pyLt_encTagged_t, pyLt_encLocal_t,
            beq_succ_self_t, decide_succ_lt_t]
      · rw [hp] at h
        rcases hk k n hp with rfl | rfl | rfl
        · simp [Version.is_alpha, hp] at h
          subst h
          simp [getNextRelease, hp, Version.vlt, Version.encode,
            Version.major, Version.minor, Version.micro, pyLtList_nil,
            pyLtList_cons, pyEq_int, pyEq_triple, pyEq_encPreview,
            pyEq_encTagged, pyEq_encLocal, pyLt_int_t, pyLt_triple_t,
            pyLt_encPreview_t, pyLt_encTagged_t, pyLt_encLocal_t,
            beq_succ_self_t, decide_succ_lt_t]
        · simp [Version.is_alpha, hp] at h
        · simp [Version.is_alpha, hp] at h
  | betaIncr im =>
      simp only [Modifier.apply, betaIncrement,
        preReleaseIncrement] at h
      rcases hp : v.preview with _ | ⟨k, n⟩
      · rw [hp] at h
        simp only [Except.ok.injEq] at h
        subst h
        cases im <;>
          simp [getNextRelease, hp, Version.vlt, Version.encode,
            Version.major, Version.minor, Version.micro, pyLtList_nil,
            pyLtList_cons, pyEq_int, pyEq_triple, pyEq_encPreview,
            pyEq_encTagged, pyEq_encLocal, pyLt_int_t, pyLt_triple_t,
            pyLt_encPreview_t, pyLt_encTagged_t, pyLt_encLocal_t,
            beq_succ_self_t, decide_succ_lt_t]
      · rw [hp] at h
        rcases hk k n hp with rfl | rfl | rfl
        · simp [Version.is_alpha, Version.is_beta, hp] at h
          subst h
          simp [getNextRelease, hp, Version.vlt, Version.encode,
            Version.major, Version.minor, Version.micro, pyLtList_nil,
            pyLtList_cons, pyEq_int, pyEq_triple, pyEq_encPreview,
            pyEq_encTagged, pyEq_encLocal, pyLt_int_t, pyLt_triple_t,
            pyLt_encPreview_t, pyLt_encTagged_t, pyLt_encLocal_t,
            beq_succ_self_t, decide_succ_lt_t, pyStrLt_b_a]
        · simp [Version.is_alpha, Version.is_beta, hp] at h
          subst h
          simp [getNextRelease, hp, Version.vlt, Version.encode,
            Version.major, Version.minor, Version.micro, pyLtList_nil,
            pyLtList_cons, pyEq_int, pyEq_triple, pyEq_encPreview,
            pyEq_encTagged, pyEq_encLocal, pyLt_int_t, pyLt_triple_t,
            pyLt_encPreview_t, pyLt_encTagged_t, pyLt_encLocal_t,
            beq_succ_self_t, decide_succ_lt_t]
        · simp [Version.is_alpha, Version.is_beta, hp] at h
  | rcIncr im =>
      simp only [Modifier.apply, releaseCandidateIncrement,
        preReleaseIncrement] at h
      rcases hp : v.preview with _ | ⟨k, n⟩
      · rw [hp] at h
        simp only [Except.ok.injEq] at h
        subst h
        cases im <;>
          simp [getNextRelease, hp, Version.vlt, Version.encode,
            Version.major, Version.minor, Version.micro, pyLtList_nil,
            pyLtList_cons, pyEq_int, pyEq_triple, pyEq_encPreview,
            pyEq_encTagged, pyEq_encLocal, pyLt_int_t, pyLt_triple_t,
            pyLt_encPreview_t, pyLt_encTagged_t, pyLt_encLocal_t,
            beq_succ_self_t, decide_succ_lt_t]
      · rw [hp] at h
        rcases hk k n hp with rfl | rfl | rfl
        · simp [Version.is_alpha, Version.is_beta,
            Version.is_release_candidate, hp] at h
          subst h
          simp [getNextRelease, hp, Version.vlt, Version.encode,
            Version.major, Version.minor, Version.micro, pyLtList_nil,
            pyLtList_cons, pyEq_int, pyEq_triple, pyEq_encPreview,
            pyEq_encTagged, pyEq_encLocal, pyLt_int_t, pyLt_triple_t,
            pyLt_encPreview_t, pyLt_encTagged_t, pyLt_encLocal_t,
            beq_succ_self_t, decide_succ_lt_t, pyStrLt_rc_a]
        · simp [Version.is_alpha, Version.is_beta,
            Version.is_release_candidate, hp] at h
          subst h
          simp [getNextRelease, hp, Version.vlt, Version.encode,
            Version.major, Version.minor, Version.micro, pyLtList_nil,
            pyLtList_cons, pyEq_int, pyEq_triple, pyEq_encPreview,
            pyEq_encTagged, pyEq_encLocal, pyLt_int_t, pyLt_triple_t,
            pyLt_encPreview_t, pyLt_encTagged_t, pyLt_encLocal_t,
            beq_succ_self_t, decide_succ_lt_t, pyStrLt_rc_b]
        · simp [Version.is_alpha, Version.is_beta,
            Version.is_release_candidate, hp] at h
          subst h
          simp [getNextRelease, hp, Version.vlt, Version.encode,
            Version.major, Version.minor, Version.micro, pyLtList_nil,
            pyLtList_cons, pyEq_int, pyEq_triple, pyEq_encPreview,
            pyEq_encTagged, pyEq_encLocal, pyLt_int_t, pyLt_triple_t,
            pyLt_encPreview_t, pyLt_encTagged_t, pyLt_encLocal_t,
            beq_succ_self_t, decide_succ_lt_t]
  | preMajor =>
      simp only [Modifier.apply, poetryPreMajor] at h
      cases hf : v.is_final <;> simp only [hf] at h
      · simp at h
      · simp only [Bool.not_true, Bool.false_eq_true, if_false,
          Except.ok.injEq] at h
        subst h
        simp [Version.vlt, Version.encode, Version.major, Version.minor,
          Version.micro, pyLtList_nil, pyLtList_cons, pyEq_int,
          pyEq_triple, pyEq_encPreview, pyEq_encTagged, pyEq_encLocal,
          pyLt_int_t, pyLt_triple_t, pyLt_encPreview_t,
          pyLt_encTagged_t, pyLt_encLocal_t, beq_succ_self_t,
          decide_succ_lt_t]
  | preMinor =>
      simp only [Modifier.apply, poetryPreMinor] at h
      cases hf : v.is_final <;> simp only [hf] at h
      · simp at h
      · simp only [Bool.not_true, Bool.false_eq_true, if_false,
          Except.ok.injEq] at h
        subst h
        simp [Version.vlt, Version.encode, Version.major, Version.minor,
          Version.micro, pyLtList_nil, pyLtList_cons, pyEq_int,
          pyEq_triple, pyEq_encPreview, pyEq_encTagged, pyEq_encLocal,
          pyLt_int_t, pyLt_triple_t, pyLt_encPreview_t,
          pyLt_encTagged_t, pyLt_encLocal_t, beq_succ_self_t,
          decide_succ_lt_t]
  | prePatch =>
      simp only [Modifier.apply, poetryPrePatch] at h
      cases hf : v.is_final <;> simp only [hf] at h
      · simp at h
      · simp only [Bool.not_true, Bool.false_eq_true, if_false,
          Except.ok.injEq] at h
        subst h
        simp [Version.vlt, Version.encode, Version.major, Version.minor,
          Version.micro, pyLtList_nil, pyLtList_cons, pyEq_int,
          pyEq_triple, pyEq_encPreview, pyEq_encTagged, pyEq_encLocal,
          pyLt_int_t, pyLt_triple_t, pyLt_encPreview_t,
          pyLt_encTagged_t, pyLt_encLocal_t, beq_succ_self_t,
          decide_succ_lt_t]
  | preRelease =>
      simp only [Modifier.apply, Except.ok.injEq] at h
      subst h
      rcases hp : v.preview with _ | ⟨k, n⟩
      · simp [poetryPreRelease, hp, Version.vlt, Version.encode,
          Version.major, Version.minor, Version.micro, pyLtList_nil,
          pyLtList_cons, pyEq_int, pyEq_triple, pyEq_encPreview,
          pyEq_encTagged, pyEq_encLocal, pyLt_int_t, pyLt_triple_t,
          pyLt_encPreview_t, pyLt_encTagged_t, pyLt_encLocal_t,
          beq_succ_self_t, decide_succ_lt_t]
      · rcases hk k n hp with rfl | rfl | rfl <;>
          simp [poetryPreRelease, hp, Version.is_alpha, Version.is_beta,
            Version.is_release_candidate, Version.vlt, Version.encode,
            Version.major, Version.minor, Version.micro, pyLtList_nil,
            pyLtList_cons, pyEq_int, pyEq_triple, pyEq_encPreview,
            pyEq_encTagged, pyEq_encLocal, pyLt_int_t, pyLt_triple_t,
            pyLt_encPreview_t, pyLt_encTagged_t, pyLt_encLocal_t,
            beq_succ_self_t, decide_succ_lt_t]

/-- C1 witness: the major increment on 1.2.3 compares greater-or-equal.
-/
theorem modifier_monotonic_where_defined_witness :
    Version.vge
        { epoch := 0, release_tuple := [2, 0, 0], preview := none,
          post := none, dev := none, local_ := none }
        { epoch := 0, release_tuple := [1, 2, 3], preview := none,
          post := none, dev := none, local_ := none } ≠ some false :=
  modifier_monotonic_where_defined (.majorIncr true)
    { epoch := 0, release_tuple := [1, 2, 3], preview := none,
      post := none, dev := none, local_ := none }
    { epoch := 0, release_tuple := [2, 0, 0], preview := none,
      post := none, dev := none, local_ := none }
    (fun k n hh => nomatch hh) (by decide)

/-- C1 counterexample: adding a post part to 1.2.3 succeeds but the
comparison of result against input is NOT defined (Python raises a
TypeError), contrary to the claim that it is defined and true; moreover
on the legal long-form version 1.2.3(alpha5) the alpha increment is
defined and strictly DECREASING under the code ordering, since the
normalized kind string `a` sorts below `alpha`. -/
theorem monotonicity_comparison_undefined :
    Modifier.postIncr.apply
        { epoch := 0, release_tuple := [1, 2, 3], preview := none,
          post := none, dev := none, local_ := none } =
      .ok { epoch := 0, release_tuple := [1, 2, 3], preview := none,
            post := some 1, dev := none, local_ := none } ∧
    Version.vge
        { epoch := 0, release_tuple := [1, 2, 3], preview := none,
          post := some 1, dev := none, local_ := none }
        { epoch := 0, release_tuple := [1, 2, 3], preview := none,
          post := none, dev := none, local_ := none } = none ∧
    (none : Option Bool) ≠ some true ∧
    alphaIncrement false
        { epoch := 0, release_tuple := [1, 2, 3],
          preview := some ("alpha", 5), post := none, dev := none,
          local_ := none } =
      .ok { epoch := 0, release_tuple := [1, 2, 3],
            preview := some ("a", 1), post := none, dev := none,
            local_ := none } ∧
    Version.vge
        { epoch := 0, release_tuple := [1, 2, 3],
          preview := some ("a", 1), post := none, dev := none,
          local_ := none }
        { epoch := 0, release_tuple := [1, 2, 3],
          preview := some ("alpha", 5), post := none, dev := none,
          local_ := none } = some false := by decide

theorem digitChar_isDigit (n : Nat) : (digitChar n).isDigit = true := by
  unfold digitChar
  split_ifs <;> decide

theorem digitVal_digitChar (n : Nat) (h : n ≤ 9) :
    digitVal (digitChar n) = n := by
  interval_cases n <;> decide

theorem natDigitsAux_all_digits :
    ∀ f n, n < f → ∀ c ∈ natDigitsAux f n, c.isDigit = true := by
  intro f
  induction f with
  | zero => intro n hn; omega
  | succ f ih =>
      intro n hn c hc
      rw [natDigitsAux] at hc
      split at hc
      · simp at hc
        subst hc
        exact digitChar_isDigit n
      · rename_i h10
        rcases List.mem_append.mp hc with h | h
        · refine ih (n / 10) ?_ c h
          have h0 : 0 < n := by omega
          have := Nat.div_lt_self h0 (show 1 < 10 by omega)
          omega
        · simp at h
          subst h
          exact digitChar_isDigit (n % 10)

theorem natDigitsAux_ne_nil (f n : Nat) (h : n < f) :
    natDigitsAux f n ≠ [] := by
  cases f with
  | zero => omega
  | succ f =>
      rw [natDigitsAux]
      split
      · simp
      · simp

theorem foldl_natDigitsAux :
    ∀ f n acc, n < f →
      List.foldl (fun acc c => 10 * acc + digitVal c) acc
          (natDigitsAux f n) =
        acc * 10 ^ (natDigitsAux f n).length + n := by
  intro f
  induction f with
  | zero => intro n acc hn; omega
  | succ f ih =>
      intro n acc hn
      rw [natDigitsAux]
      split
      · rename_i h10
        simp [List.foldl]
        rw [digitVal_digitChar n (by omega)]
        ring
      · rename_i h10
        have h0 : 0 < n := by omega
        have hlt := Nat.div_lt_self h0 (show 1 < 10 by omega)
        rw [List.foldl_append]
        rw [ih (n / 10) acc (by omega)]
        simp only [List.foldl_cons, List.foldl_nil, List.length_append,
          List.length_cons, List.length_nil, Nat.zero_add]
        rw [digitVal_digitChar (n % 10) (by omega)]
        rw [pow_succ]
        rw [show 10 * (acc * 10 ^ (natDigitsAux f (n / 10)).length
              + n / 10) + n % 10 =
            acc * (10 ^ (natDigitsAux f (n / 10)).length * 10)
              + (10 * (n / 10) + n % 10) from by ring]
        congr 1
        omega

theorem digitsVal_natDigits (n : Nat) : digitsVal (natDigits n) = n := by
  unfold digitsVal natDigits
  rw [foldl_natDigitsAux (n + 1) n 0 (by omega)]
  simp

theorem natDigits_all_digits (n : Nat) :
    ∀ c ∈ natDigits n, c.isDigit = true :=
  natDigitsAux_all_digits (n + 1) n (by omega)

theorem natDigits_ne_nil (n : Nat) : natDigits n ≠ [] :=
  natDigitsAux_ne_nil (n + 1) n (by omega)

theorem takeWhile_all_append {p : Char → Bool} {xs ys : List Char}
    (h : ∀ c ∈ xs, p c = true) :
    (xs ++ ys).takeWhile p = xs ++ ys.takeWhile p := by
  induction xs with
  | nil => simp
  | cons x t ih =>
      simp only [List.cons_append, List.takeWhile_cons]
      rw [h x (by simp)]
      simp only [if_true]
      rw [ih (fun c hc => h c (by simp [hc]))]

theorem dropWhile_all_append {p : Char → Bool} {xs ys : List Char}
    (h : ∀ c ∈ xs, p c = true) :
    (xs ++ ys).dropWhile p = ys.dropWhile p := by
  induction xs with
  | nil => simp
  | cons x t ih =>
      simp only [List.cons_append, List.dropWhile_cons]
      rw [h x (by simp)]
      simp only [if_true]
      exact ih (fun c hc => h c (by simp [hc]))

theorem takeWhile_nil_of_head {p : Char → Bool} {ys : List Char}
    (h : ∀ c t, ys = c :: t → p c = false) :
    ys.takeWhile p = [] := by
  cases ys with
  | nil => rfl
  | cons c t =>
      simp only [List.takeWhile_cons]
      rw [h c t rfl]
      simp

theorem dropWhile_self_of_head {p : Char → Bool} {ys : List Char}
    (h : ∀ c t, ys = c :: t → p c = false) :
    ys.dropWhile p = ys := by
  cases ys with
  | nil => rfl
  | cons c t =>
      simp only [List.dropWhile_cons]
      rw [h c t rfl]
      simp

theorem noDigitHead_head {rest : List Char} (h : noDigitHead rest) :
    ∀ c t, rest = c :: t → c.isDigit = false := by
  intro c t he
  subst he
  exact h

theorem parseNat_digits (n : Nat) (rest : List Char)
    (h : noDigitHead rest) :
    parseNat (natDigits n ++ rest) = some (n, rest) := by
  unfold parseNat
  rw [takeWhile_all_append (natDigits_all_digits n),
    dropWhile_all_append (natDigits_all_digits n),
    takeWhile_nil_of_head (noDigitHead_head h),
    dropWhile_self_of_head (noDigitHead_head h)]
  simp only [List.append_nil]
  rw [if_neg (by simp [List.isEmpty_iff, natDigits_ne_nil n])]
  rw [digitsVal_natDigits]

theorem digitChar_cases (m : Nat) :
    (digitChar m).isDigit = true ∧ (digitChar m).isAlpha = false ∧
      isSepChar (digitChar m) = false ∧ digitChar m ≠ '.' ∧
      digitChar m ≠ '!' ∧ digitChar m ≠ '+' := by
  unfold digitChar
  split_ifs <;> exact (by decide)

theorem natDigitsAux_digitChar :
    ∀ f n, n < f → ∀ c ∈ natDigitsAux f n, ∃ m, c = digitChar m := by
  intro f
  induction f with
  | zero => intro n hn; omega
  | succ f ih =>
      intro n hn c hc
      rw [natDigitsAux] at hc
      split at hc
      · simp at hc
        exact ⟨n, hc⟩
      · rename_i h10
        rcases List.mem_append.mp hc with h | h
        · refine ih (n / 10) ?_ c h
          have h0 : 0 < n := by omega
          have := Nat.div_lt_self h0 (show 1 < 10 by omega)
          omega
        · simp at h
          exact ⟨n % 10, h⟩

theorem natDigits_not_alpha (n : Nat) :
    ∀ c ∈ natDigits n, c.isAlpha = false := by
  intro c hc
  obtain ⟨m, rfl⟩ :=
    natDigitsAux_digitChar (n + 1) n (by omega) c hc
  exact (digitChar_cases m).2.1

theorem natDigits_head_digit (n : Nat) :
    ∃ d t, natDigits n = d :: t ∧ d.isDigit = true := by
  rcases hd : natDigits n with _ | ⟨d, t⟩
  · exact absurd hd (natDigits_ne_nil n)
  · exact ⟨d, t, rfl, natDigits_all_digits n d (by rw [hd]; simp)⟩

theorem parseRelTailAux_stop (f : Nat) (cs : List Char)
    (h : relStop cs) :
    parseRelTailAux f cs = ([], cs) := by
  cases f with
  | zero => rfl
  | succ f =>
      rcases cs with _ | ⟨c, t⟩
      · rfl
      · rw [parseRelTailAux.eq_def]
        by_cases hc : c = '.'
        · subst hc
          rcases t with _ | ⟨d, t'⟩
          · simp
          · simp only [relStop, headDigitFalse] at h
            simp [h trivial]
        · simp [hc]

theorem parseRelTailAux_step (f : Nat) (m : Nat) (rest : List Char)
    (h : noDigitHead rest) :
    parseRelTailAux (f + 1) ('.' :: (natDigits m ++ rest)) =
      ((m :: (parseRelTailAux f rest).1),
        (parseRelTailAux f rest).2) := by
  obtain ⟨d, t, hd, hdig⟩ := natDigits_head_digit m
  rw [parseRelTailAux.eq_def]
  rw [hd]
  simp only [List.cons_append, if_pos rfl, hdig, if_true]
  rw [show (d :: (t ++ rest)) = (d :: t) ++ rest from by simp]
  rw [← hd]
  rw [takeWhile_all_append (natDigits_all_digits m),
    dropWhile_all_append (natDigits_all_digits m),
    takeWhile_nil_of_head (noDigitHead_head h),
    dropWhile_self_of_head (noDigitHead_head h)]
  simp only [List.append_nil]
  rw [digitsVal_natDigits]

theorem natDigits_head_not_sep (n : Nat) :
    ∀ d t, natDigits n = d :: t → isSepChar d = false := by
  intro d t hd
  obtain ⟨m, rfl⟩ := natDigitsAux_digitChar (n + 1) n (by omega) d
    (by rw [show natDigitsAux (n+1) n = natDigits n from rfl, hd]; simp)
  exact (digitChar_cases m).2.2.1

theorem parseOptNum_digits (n : Nat) (rest : List Char)
    (h : noDigitHead rest) :
    parseOptNum (natDigits n ++ rest) = (n, rest) := by
  obtain ⟨d, t, hd, hdig⟩ := natDigits_head_digit n
  unfold parseOptNum
  rw [hd]
  simp only [List.cons_append]
  rw [natDigits_head_not_sep n d t hd]
  simp only [Bool.false_and, Bool.false_eq_true, if_false]
  rw [show (d :: (t ++ rest)) = (d :: t) ++ rest from by simp, ← hd]
  rw [takeWhile_all_append (natDigits_all_digits n),
    dropWhile_all_append (natDigits_all_digits n),
    takeWhile_nil_of_head (noDigitHead_head h),
    dropWhile_self_of_head (noDigitHead_head h)]
  simp only [List.append_nil]
  rw [if_neg (by simp [List.isEmpty_iff, natDigits_ne_nil n])]
  rw [digitsVal_natDigits]

theorem takeWhile_alpha_digits_nil (n : Nat) (rest : List Char) :
    (natDigits n ++ rest).takeWhile Char.isAlpha = [] := by
  apply takeWhile_nil_of_head
  intro c t' he
  obtain ⟨d, t, hd, _⟩ := natDigits_head_digit n
  rw [hd] at he
  simp only [List.cons_append, List.cons.injEq] at he
  obtain ⟨m, rfl⟩ := natDigitsAux_digitChar (n + 1) n (by omega) d
    (by rw [show natDigitsAux (n + 1) n = natDigits n from rfl, hd]; simp)
  rw [← he.1]
  exact (digitChar_cases m).2.1

theorem parsePre_canonical (k : String)
    (hk : k = "a" ∨ k = "b" ∨ k = "rc") (n : Nat) (rest : List Char)
    (h : noDigitHead rest) :
    parsePre (k.data ++ (natDigits n ++ rest)) =
      some ((k, n), rest) := by
  have hop := parseOptNum_digits n rest h
  have hna := takeWhile_alpha_digits_nil n rest
  rcases hk with rfl | rfl | rfl
  · show parsePre ('a' :: (natDigits n ++ rest)) = _
    simp [parsePre, isSepChar, List.takeWhile_cons, hna, normalizeKind,
      hop]
  · show parsePre ('b' :: (natDigits n ++ rest)) = _
    simp [parsePre, isSepChar, List.takeWhile_cons, hna, normalizeKind,
      hop]
  · show parsePre ('r' :: 'c' :: (natDigits n ++ rest)) = _
    simp [parsePre, isSepChar, List.takeWhile_cons, hna, normalizeKind,
      hop]

theorem parsePre_fail_dot_word (c0 : Char) (X : List Char)
    (hc0 : c0 = 'p' ∨ c0 = 'd') :
    parsePre ('.' :: c0 :: X) = none := by
  rcases hc0 with rfl | rfl <;>
    simp [parsePre, isSepChar, List.takeWhile_cons, normalizeKind]

theorem parsePre_fail_plus (X : List Char) :
    parsePre ('+' :: X) = none := by
  simp [parsePre, isSepChar, List.takeWhile_cons, normalizeKind]

theorem parsePre_fail_nil : parsePre [] = none := rfl

theorem parseWordNum_present (word : List Char) (n : Nat)
    (rest : List Char) (h : noDigitHead rest) :
    parseWordNum word ('.' :: (word ++ (natDigits n ++ rest))) =
      some (n, rest) := by
  simp [parseWordNum, isSepChar, List.isPrefixOf_iff_prefix,
    List.prefix_append, List.drop_left, parseOptNum_digits n rest h]

theorem parseWordNum_post_at_dev (X : List Char) :
    parseWordNum "post".data ('.' :: 'd' :: X) = none := by
  simp [parseWordNum, isSepChar, List.isPrefixOf]

theorem parseWordNum_at_plus (word : List Char) (c0 : Char)
    (t0 : List Char) (hw : word = c0 :: t0) (hc : c0 ≠ '+')
    (X : List Char) :
    parseWordNum word ('+' :: X) = none := by
  subst hw
  simp [parseWordNum, isSepChar, List.isPrefixOf, hc]

theorem parseWordNum_at_nil (word : List Char) (c0 : Char)
    (t0 : List Char) (hw : word = c0 :: t0) :
    parseWordNum word [] = none := by
  subst hw
  simp [parseWordNum, List.isPrefixOf]

theorem dotJoin_head_not_alnum (segs : List (List Char)) :
    ∀ c t, dotJoin segs = c :: t → c.isAlphanum = false := by
  intro c t h
  cases segs with
  | nil => simp [dotJoin] at h
  | cons s ss =>
      simp only [dotJoin, List.map_cons, List.flatten_cons,
        List.cons_append, List.cons.injEq] at h
      rw [← h.1]
      decide

theorem length_le_dotJoin (segs : List (List Char)) :
    segs.length ≤ (dotJoin segs).length := by
  induction segs with
  | nil => simp [dotJoin]
  | cons s ss ih =>
      simp only [dotJoin, List.map_cons, List.flatten_cons,
        List.cons_append, List.length_cons, List.length_append]
      simp only [dotJoin] at ih
      omega

theorem parseLocalSegsAux_dotJoin (segs : List (List Char)) :
    ∀ f, (∀ s ∈ segs, s ≠ [] ∧ ∀ c ∈ s, c.isAlphanum) →
      segs.length ≤ f →
      parseLocalSegsAux f (dotJoin segs) = (segs, []) := by
  induction segs with
  | nil =>
      intro f _ _
      cases f <;> rfl
  | cons s ss ih =>
      intro f hwf hf
      cases f with
      | zero => simp at hf
      | succ f =>
          rw [parseLocalSegsAux.eq_def]
          simp only [dotJoin, List.map_cons, List.flatten_cons,
            List.cons_append]
          rw [if_pos (show isSepChar '.' = true from by decide)]
          have hs := hwf s (by simp)
          have htw : (s ++ (List.map (fun s => '.' :: s) ss).flatten
              ).takeWhile Char.isAlphanum = s := by
            rw [takeWhile_all_append hs.2]
            rw [show (List.map (fun s => '.' :: s) ss).flatten
              = dotJoin ss from rfl]
            rw [takeWhile_nil_of_head (dotJoin_head_not_alnum ss)]
            simp
          rw [htw]
          rw [if_neg (by simp [List.isEmpty_iff, hs.1])]
          rw [List.drop_left]
          have := ih f (fun x hx => hwf x (by simp [hx])) (by simp at hf; omega)
          simp only [dotJoin] at this
          rw [this]

theorem parseLocalPart_normalized (l : String)
    (h : normalizedLocal l) :
    parseLocalPart ('+' :: l.data) = some (l, []) := by
  obtain ⟨seg, segs, hne, hall, hsegs, hl⟩ := h
  subst hl
  show parseLocalPart ('+' :: (seg ++ dotJoin segs)) = _
  simp only [parseLocalPart]
  have htw : (seg ++ dotJoin segs).takeWhile Char.isAlphanum = seg := by
    rw [takeWhile_all_append hall]
    rw [takeWhile_nil_of_head (dotJoin_head_not_alnum segs)]
    simp
  rw [htw]
  rw [if_neg (by simp [List.isEmpty_iff, hne])]
  rw [List.drop_left]
  rw [parseLocalSegsAux_dotJoin segs _ hsegs
    (le_trans (length_le_dotJoin segs) (by simp [List.length_append]))]

theorem parseLocalPart_nil : parseLocalPart [] = none := rfl

theorem noDigitHead_localTail (lo : Option String) :
    noDigitHead (localTailChars lo) := by
  rcases lo <;> simp [localTailChars, noDigitHead]

theorem noDigitHead_devTail (d : Option Nat) (lo : Option String) :
    noDigitHead (markerChars "dev".data d ++ localTailChars lo) := by
  rcases d with _ | n
  · simpa [markerChars] using noDigitHead_localTail lo
  · simp [markerChars, noDigitHead]

theorem noDigitHead_postTail (q d : Option Nat) (lo : Option String) :
    noDigitHead (markerChars "post".data q
      ++ (markerChars "dev".data d ++ localTailChars lo)) := by
  rcases q with _ | n
  · simpa [markerChars] using noDigitHead_devTail d lo
  · simp [markerChars, noDigitHead]

theorem noDigitHead_preTail (p : Option (String × Nat))
    (hk : ∀ k n, p = some (k, n) → k = "a" ∨ k = "b" ∨ k = "rc")
    (q d : Option Nat) (lo : Option String) :
    noDigitHead (previewChars p ++ (markerChars "post".data q
      ++ (markerChars "dev".data d ++ localTailChars lo))) := by
  rcases p with _ | ⟨k, n⟩
  · simpa [previewChars] using noDigitHead_postTail q d lo
  · rcases hk k n rfl with rfl | rfl | rfl <;>
      simp [previewChars, noDigitHead]

theorem relStop_preTail (p : Option (String × Nat))
    (hk : ∀ k n, p = some (k, n) → k = "a" ∨ k = "b" ∨ k = "rc")
    (q d : Option Nat) (lo : Option String) :
    relStop (previewChars p ++ (markerChars "post".data q
      ++ (markerChars "dev".data d ++ localTailChars lo))) := by
  rcases p with _ | ⟨k, n⟩
  · rcases q with _ | nq
    · rcases d with _ | nd
      · rcases lo with _ | l
        · simp [previewChars, markerChars, localTailChars, relStop]
        · simp [previewChars, markerChars, localTailChars, relStop]
      · simp [previewChars, markerChars, relStop, headDigitFalse]
    · simp [previewChars, markerChars, relStop, headDigitFalse]
  · rcases hk k n rfl with rfl | rfl | rfl <;>
      simp [previewChars, relStop, headDigitFalse]

theorem parsePre_markerTail (q d : Option Nat) (lo : Option String) :
    parsePre (markerChars "post".data q
      ++ (markerChars "dev".data d ++ localTailChars lo)) = none := by
  rcases q with _ | nq
  · rcases d with _ | nd
    · rcases lo with _ | l
      · simp [markerChars, localTailChars, parsePre_fail_nil]
      · simpa [markerChars, localTailChars] using
          parsePre_fail_plus l.data
    · simpa [markerChars] using parsePre_fail_dot_word 'd'
        ("ev".data ++ natDigits nd ++ localTailChars lo) (Or.inr rfl)
  · simpa [markerChars] using parsePre_fail_dot_word 'p'
      ("ost".data ++ natDigits nq
        ++ (markerChars "dev".data d ++ localTailChars lo)) (Or.inl rfl)

theorem parseWordNum_post_devTail (d : Option Nat) (lo : Option String) :
    parseWordNum "post".data
      (markerChars "dev".data d ++ localTailChars lo) = none := by
  rcases d with _ | nd
  · rcases lo with _ | l
    · simpa [markerChars, localTailChars] using
        parseWordNum_at_nil "post".data 'p' "ost".data rfl
    · simpa [markerChars, localTailChars] using
        parseWordNum_at_plus "post".data 'p' "ost".data rfl
          (by decide) l.data
  · simpa [markerChars] using
      parseWordNum_post_at_dev
        ("ev".data ++ natDigits nd ++ localTailChars lo)

theorem parseWordNum_dev_localTail (lo : Option String) :
    parseWordNum "dev".data (localTailChars lo) = none := by
  rcases lo with _ | l
  · simpa [localTailChars] using
      parseWordNum_at_nil "dev".data 'd' "ev".data rfl
  · simpa [localTailChars] using
      parseWordNum_at_plus "dev".data 'd' "ev".data rfl
        (by decide) l.data

theorem parseOptStep_some {α : Type} (p : List Char → Option (α × List Char))
    (cs : List Char) (x : α) (r : List Char) (h : p cs = some (x, r)) :
    parseOptStep p cs = (some x, r) := by
  simp [parseOptStep, h]

theorem parseOptStep_none {α : Type} (p : List Char → Option (α × List Char))
    (cs : List Char) (h : p cs = none) :
    parseOptStep p cs = ((none : Option α), cs) := by
  simp [parseOptStep, h]

theorem stepLocal (lo : Option String)
    (hlo : ∀ l, lo = some l → normalizedLocal l) :
    parseOptStep parseLocalPart (localTailChars lo) = (lo, []) := by
  rcases lo with _ | l
  · exact parseOptStep_none _ _ parseLocalPart_nil
  · exact parseOptStep_some _ _ l []
      (parseLocalPart_normalized l (hlo l rfl))

theorem stepDev (d : Option Nat) (lo : Option String) :
    parseOptStep (parseWordNum "dev".data)
        (markerChars "dev".data d ++ localTailChars lo) =
      (d, localTailChars lo) := by
  rcases d with _ | nd
  · simpa [markerChars] using
      parseOptStep_none (parseWordNum "dev".data) _
        (parseWordNum_dev_localTail lo)
  · refine parseOptStep_some _ _ nd _ ?_
    have := parseWordNum_present "dev".data nd (localTailChars lo)
      (noDigitHead_localTail lo)
    simpa [markerChars, List.append_assoc] using this

theorem stepPost (q d : Option Nat) (lo : Option String) :
    parseOptStep (parseWordNum "post".data)
        (markerChars "post".data q
          ++ (markerChars "dev".data d ++ localTailChars lo)) =
      (q, markerChars "dev".data d ++ localTailChars lo) := by
  rcases q with _ | nq
  · simpa [markerChars] using
      parseOptStep_none (parseWordNum "post".data) _
        (parseWordNum_post_devTail d lo)
  · refine parseOptStep_some _ _ nq _ ?_
    have := parseWordNum_present "post".data nq
      (markerChars "dev".data d ++ localTailChars lo)
      (noDigitHead_devTail d lo)
    simpa [markerChars, List.append_assoc] using this

theorem stepPre (p : Option (String × Nat))
    (hk : ∀ k n, p = some (k, n) → k = "a" ∨ k = "b" ∨ k = "rc")
    (q d : Option Nat) (lo : Option String) :
    parseOptStep parsePre
        (previewChars p ++ (markerChars "post".data q
          ++ (markerChars "dev".data d ++ localTailChars lo))) =
      (p, markerChars "post".data q
        ++ (markerChars "dev".data d ++ localTailChars lo)) := by
  rcases p with _ | ⟨k, n⟩
  · simpa [previewChars] using
      parseOptStep_none parsePre _ (parsePre_markerTail q d lo)
  · refine parseOptStep_some _ _ (k, n) _ ?_
    have := parsePre_canonical k (hk k n rfl) n
      (markerChars "post".data q
        ++ (markerChars "dev".data d ++ localTailChars lo))
      (noDigitHead_postTail q d lo)
    simpa [previewChars, List.append_assoc] using this

theorem relTail_two (g m2 m3 : Nat) (T : List Char) (hg : 2 ≤ g)
    (hnd : noDigitHead T) (hrs : relStop T) :
    parseRelTailAux g
        ('.' :: (natDigits m2 ++ ('.' :: (natDigits m3 ++ T)))) =
      ([m2, m3], T) := by
  obtain ⟨f, rfl⟩ : ∃ f, g = f + 1 + 1 := ⟨g - 2, by omega⟩
  rw [parseRelTailAux_step (f + 1) m2 _ (by simp [noDigitHead])]
  rw [parseRelTailAux_step f m3 T hnd]
  rw [parseRelTailAux_stop f T hrs]

theorem parseAfterFirst_canonical (ep : Nat) (v : Version)
    (hk : canonicalKinds v)
    (hlo : ∀ l, v.local_ = some l → normalizedLocal l) :
    parseAfterFirst ep v.major
        ('.' :: (natDigits v.minor ++ ('.' :: (natDigits v.micro
          ++ (previewChars v.preview
            ++ (markerChars "post".data v.post
              ++ (markerChars "dev".data v.dev
                ++ localTailChars v.local_))))))) =
      some { epoch := ep,
             release_tuple := [v.major, v.minor, v.micro],
             preview := v.preview, post := v.post, dev := v.dev,
             local_ := v.local_ } := by
  have hndT := noDigitHead_preTail v.preview hk v.post v.dev v.local_
  have hrsT := relStop_preTail v.preview hk v.post v.dev v.local_
  have hlen : 2 ≤ ('.' :: (natDigits v.minor ++ ('.' :: (natDigits v.micro
      ++ (previewChars v.preview
        ++ (markerChars "post".data v.post
          ++ (markerChars "dev".data v.dev
            ++ localTailChars v.local_))))))).length := by
    simp [List.length_cons, List.length_append]
    omega
  simp only [parseAfterFirst]
  rw [relTail_two _ v.minor v.micro _ hlen hndT hrsT]
  simp only []
  rw [stepPre v.preview hk v.post v.dev v.local_]
  simp only []
  rw [stepPost v.post v.dev v.local_]
  simp only []
  rw [stepDev v.dev v.local_]
  simp only []
  rw [stepLocal v.local_ hlo]
  simp

theorem format_data (v : Version) : (format v).data = formatChars v := by
  rcases v with ⟨e, rt, p, q, d, lo⟩
  simp only [format, formatChars, natRepr]
  rcases p with _ | ⟨k, n⟩ <;> rcases q with _ | nq <;>
    rcases d with _ | nd <;> rcases lo with _ | l <;>
    rcases Nat.eq_zero_or_pos e with he | he <;>
    simp [he, previewChars, markerChars, localTailChars,
      String.data_append, List.append_assoc]

theorem formatChars_eq (v : Version) :
    formatChars v =
      (if 0 < v.epoch then natDigits v.epoch ++ ['!'] else [])
        ++ (natDigits v.major ++ ('.' :: (natDigits v.minor
          ++ ('.' :: (natDigits v.micro ++ (previewChars v.preview
            ++ (markerChars "post".data v.post
              ++ (markerChars "dev".data v.dev
                ++ localTailChars v.local_)))))))) := by
  simp [formatChars, List.append_assoc]

theorem parse_format (v : Version) (hk : canonicalKinds v)
    (hlo : ∀ l, v.local_ = some l → normalizedLocal l) :
    parse (format v) = some (canonical v) := by
  have h1 := parseAfterFirst_canonical v.epoch v hk hlo
  unfold parse
  rw [format_data v, formatChars_eq v]
  rcases Nat.eq_zero_or_pos v.epoch with he | he
  · rw [if_neg (by omega), List.nil_append]
    rw [parseNat_digits v.major _ (by simp [noDigitHead])]
    simp only []
    rw [if_neg (by decide)]
    rw [show (0 : Nat) = v.epoch from he.symm]
    exact h1
  · rw [if_pos he]
    rw [List.append_assoc, List.singleton_append]
    rw [parseNat_digits v.epoch _ (by simp [noDigitHead])]
    simp only []
    rw [if_pos trivial]
    rw [parseNat_digits v.major _ (by simp [noDigitHead])]
    simp only []
    exact h1

theorem format_canonical (v : Version) : format (canonical v) = format v := by
  simp [format, canonical, Version.major, Version.minor, Version.micro]

theorem normalizeKind_kinds (w : List Char) (k : String)
    (h : normalizeKind w = some k) :
    k = "a" ∨ k = "b" ∨ k = "rc" := by
  unfold normalizeKind at h
  split_ifs at h <;> simp_all

theorem parsePre_kinds (cs : List Char) (k : String) (n : Nat)
    (r : List Char) (h : parsePre cs = some ((k, n), r)) :
    k = "a" ∨ k = "b" ∨ k = "rc" := by
  unfold parsePre at h
  simp only [] at h
  rcases hnk : normalizeKind ((match cs with
      | c :: rest => if isSepChar c then rest else cs
      | [] => cs).takeWhile Char.isAlpha) with _ | k'
  · rw [hnk] at h
    simp at h
  · rw [hnk] at h
    simp only [] at h
    rcases hpo : parseOptNum ((match cs with
        | c :: rest => if isSepChar c then rest else cs
        | [] => cs).drop ((match cs with
        | c :: rest => if isSepChar c then rest else cs
        | [] => cs).takeWhile Char.isAlpha).length) with ⟨n', r'⟩
    rw [hpo] at h
    simp at h
    obtain ⟨⟨hk', -⟩, -⟩ := h
    exact hk' ▸ normalizeKind_kinds _ k' hnk

theorem parseLocalSegsAux_shape :
    ∀ f cs, ∀ s ∈ (parseLocalSegsAux f cs).1,
      s ≠ [] ∧ ∀ c ∈ s, c.isAlphanum = true := by
  intro f
  induction f with
  | zero =>
      intro cs s hs
      simp [parseLocalSegsAux] at hs
  | succ f ih =>
      intro cs s hs
      rw [parseLocalSegsAux.eq_def] at hs
      rcases cs with _ | ⟨c, rest⟩
      · simp at hs
      · simp only [] at hs
        by_cases hsep : isSepChar c
        · rw [if_pos hsep] at hs
          by_cases hemp : (rest.takeWhile Char.isAlphanum).isEmpty
          · rw [if_pos hemp] at hs
            simp at hs
          · rw [if_neg hemp] at hs
            simp only [] at hs
            rcases List.mem_cons.mp hs with rfl | hmem
            · refine ⟨?_, ?_⟩
              · intro hnil
                rw [hnil] at hemp
                simp at hemp
              · intro ch hch
                exact List.mem_takeWhile_imp hch
            · exact ih _ s hmem
        · rw [if_neg hsep] at hs
          simp at hs

theorem parseLocalPart_shape (cs : List Char) (l : String)
    (r : List Char) (h : parseLocalPart cs = some (l, r)) :
    normalizedLocal l := by
  unfold parseLocalPart at h
  split at h
  · rename_i rest
    by_cases hemp : (rest.takeWhile Char.isAlphanum).isEmpty = true
    · rw [if_pos hemp] at h
      simp at h
    · rw [if_neg hemp] at h
      simp only [Option.some.injEq, Prod.mk.injEq] at h
      obtain ⟨hl, -⟩ := h
      refine ⟨rest.takeWhile Char.isAlphanum,
        (parseLocalSegsAux rest.length
          (rest.drop (rest.takeWhile Char.isAlphanum).length)).1,
        ?_, ?_, ?_, hl.symm⟩
      · intro hnil
        rw [hnil] at hemp
        simp at hemp
      · intro ch hch
        exact List.mem_takeWhile_imp hch
      · intro s hsmem
        exact parseLocalSegsAux_shape _ _ s hsmem
  · simp at h

theorem parseOptStep_pre_kinds (cs : List Char) (k : String) (n : Nat)
    (h : (parseOptStep parsePre cs).1 = some (k, n)) :
    k = "a" ∨ k = "b" ∨ k = "rc" := by
  unfold parseOptStep at h
  rcases hp : parsePre cs with _ | ⟨⟨k', n'⟩, r'⟩
  · rw [hp] at h
    simp at h
  · rw [hp] at h
    simp at h
    obtain ⟨hk', -⟩ := h
    exact hk' ▸ parsePre_kinds cs k' n' r' hp

theorem parseOptStep_local_norm (cs : List Char) (l : String)
    (h : (parseOptStep parseLocalPart cs).1 = some l) :
    normalizedLocal l := by
  unfold parseOptStep at h
  rcases hp : parseLocalPart cs with _ | ⟨l', r'⟩
  · rw [hp] at h
    simp at h
  · rw [hp] at h
    simp at h
    exact h ▸ parseLocalPart_shape cs l' r' hp

theorem parseAfterFirst_shape (ep first : Nat) (cs : List Char)
    (v : Version) (h : parseAfterFirst ep first cs = some v) :
    parsedShape v := by
  unfold parseAfterFirst at h
  simp only [] at h
  split at h
  · simp only [Option.some.injEq] at h
    subst h
    refine ⟨?_, ?_⟩
    · intro k n hpk
      exact parseOptStep_pre_kinds _ k n hpk
    · intro l hpl
      exact parseOptStep_local_norm _ l hpl
  · simp at h

theorem parse_shape (s : String) (v : Version)
    (h : parse s = some v) : parsedShape v := by
  unfold parse at h
  repeat' split at h
  all_goals first
    | simp at h
    | exact parseAfterFirst_shape _ _ _ v h

/-- C9: for every string the parser accepts, formatting is an idempotent
canonicalization: reparsing the formatted text succeeds, yielding the
version with the release re-exposed as the three padded components, and
formatting that reparse reproduces the same text, so
`format(from_string(s)) = format(from_string(format(from_string(s))))`. -/
theorem version_roundtrip_idempotent (s : String) (v : Version)
    (h : Version.from_string s = some v) :
    Version.from_string (format v) = some (canonical v) ∧
      format (canonical v) = format v := by
  obtain ⟨hk, hlo⟩ := parse_shape s v h
  exact ⟨parse_format v hk hlo, format_canonical v⟩

theorem version_roundtrip_idempotent_witness :
    Version.from_string "1!1.2.3rc4.post5.dev6+ab.7x" =
        some roundtripWitnessVersion ∧
      (Version.from_string (format roundtripWitnessVersion) =
          some (canonical roundtripWitnessVersion) ∧
        format (canonical roundtripWitnessVersion) =
          format roundtripWitnessVersion) :=
  ⟨by decide, version_roundtrip_idempotent "1!1.2.3rc4.post5.dev6+ab.7x"
    roundtripWitnessVersion (by decide)⟩

end PdmBump
